import Mathlib

/-!
# ls_copy: the directory-entry decode loop of `ls_2.c`

A shallow embedding of `src/ls_2.c`: the size macros, the `DirEntry` record,
`lookupFiletype`, and the `while (index < numread)` loop of `main` that walks
the block filled by `getdents`.

Conventions of the embedding.

* A byte is a `Nat`, reduced `% 256` when it is read.
* `full_block` is the 4096-byte array of `main`.  It is given as a list: cell
  `i` (for `i < 4096`) holds the list's `i`-th element, and `0` past the end of
  the list, as after `memset(full_block, 0, 4096)`.  Cells at or past 4096 do
  not exist: a `memcpy` that touches one has no defined behaviour, and the model
  stops with `Exit.outOfBlock`.
* `unsigned long` is 8 bytes and `unsigned short` 2 bytes, little-endian, `int`
  is 32 bits and `char` is signed (x86-64 Linux, where `SYS_getdents` exists).
* `numread` is a `Nat`: `main` leaves through `fatal` before the loop when the
  system call returns a negative value.
-/

namespace LsCopy

/-! ## Size macros (ls_2.c, lines 22-27) -/

/-- The macro `BLOCK_SIZE`; also the literal size of `full_block`. -/
def BLOCK_SIZE : Nat := 4096

/-- The macro `ULONG_SIZE`, `sizeof(unsigned long)`. -/
def ULONG_SIZE : Nat := 8

/-- The macro `USHORT_SIZE`, `sizeof(unsigned short)`. -/
def USHORT_SIZE : Nat := 2

/-- The macro `D_ULONG_SIZE`, textually `ULONG_SIZE*2`. -/
def D_ULONG_SIZE : Nat := ULONG_SIZE * 2

/-- The macro `ADD_DULONG_USHORT`, textually `D_ULONG_SIZE + USHORT_SIZE`. -/
def ADD_DULONG_USHORT : Nat := D_ULONG_SIZE + USHORT_SIZE

/-! ## File type constants

`ls_2.c` takes `DT_UNKNOWN` ... `DT_LNK` from the system header `<dirent.h>`. -/

/-- Modelled from the spec: `DT_UNKNOWN` of `<dirent.h>`, a header outside the sources. -/
def DT_UNKNOWN : Int := 0
/-- Modelled from the spec: `DT_FIFO` of `<dirent.h>`, a header outside the sources. -/
def DT_FIFO : Int := 1
/-- Modelled from the spec: `DT_CHR` of `<dirent.h>`, a header outside the sources. -/
def DT_CHR : Int := 2
/-- Modelled from the spec: `DT_DIR` of `<dirent.h>`, a header outside the sources. -/
def DT_DIR : Int := 4
/-- Modelled from the spec: `DT_BLK` of `<dirent.h>`, a header outside the sources. -/
def DT_BLK : Int := 6
/-- Modelled from the spec: `DT_REG` of `<dirent.h>`, a header outside the sources. -/
def DT_REG : Int := 8
/-- Modelled from the spec: `DT_LNK` of `<dirent.h>`, a header outside the sources. -/
def DT_LNK : Int := 10
/-- Modelled from the spec: `DT_SOCK` of `<dirent.h>`, a header outside the sources. -/
def DT_SOCK : Int := 12

/-! ## Data model (ls_2.c, lines 29-37) -/

/-- The struct `DirEntry` as the loop fills it.  `file_name` is the content of
the `calloc`ed name buffer (exactly `name_length` bytes); `file_type` is a
signed `char`.  The field `pad` is never written nor read by the program and
is left out. -/
structure DirEntry where
  inode_num : Nat
  offset : Nat
  record_length : Nat
  file_name : List Nat
  file_type : Int
  deriving DecidableEq, Repr

/-- One iteration that reaches the print of lines 113-121: its entry, with the
value `index` had at the top of that iteration (a ghost field, used to state
where the record was read).  What the iteration writes is `printedLine`. -/
structure Emitted where
  cursor : Nat
  entry : DirEntry
  deriving DecidableEq, Repr

/-- How the decode loop of `main` is left. -/
inductive Exit where
  /-- The loop condition `index < numread` became false: `cleanup`, then
  `exit(EXIT_SUCCESS)`. -/
  | success
  /-- The call `fatal("Encountered unknown filetype, exiting program")`. -/
  | fatalUnknownFiletype
  /-- A `memcpy` read a cell outside `full_block[0 .. 4096)`: undefined. -/
  | outOfBlock
  /-- The name was allocated and copied with a negative `name_length`:
  undefined. -/
  | negativeNameLength
  /-- The model ran out of fuel (never the case for `decodeLoop`). -/
  | outOfFuel
  deriving DecidableEq, Repr

/-- What a run of the loop produced: the lines printed, in order, and how the
loop was left. -/
structure Outcome where
  emitted : List Emitted
  exit : Exit
  deriving DecidableEq, Repr

/-! ## Reading the block -/

/-- Content of cell `i` of `full_block`. -/
def byteAt (full_block : List Nat) (i : Nat) : Nat :=
  full_block.getD i 0 % 256

/-- The `n` cells of `full_block` from `start` on, as `memcpy` reads them;
`none` when one of them lies outside the block. -/
def readBytes (full_block : List Nat) (start : Nat) : Nat → Option (List Nat)
  | 0 => some []
  | n + 1 =>
    if start < BLOCK_SIZE then
      match readBytes full_block (start + 1) n with
      | some rest => some (byteAt full_block start :: rest)
      | none => none
    else none

/-- The unsigned value of a little-endian byte sequence. -/
def leValue : List Nat → Nat
  | [] => 0
  | b :: rest => b + 256 * leValue rest

/-- A `memcpy` of `size` bytes from `full_block + start` into an unsigned
integer object of that size. -/
def readUnsigned (full_block : List Nat) (start size : Nat) : Option Nat :=
  (readBytes full_block start size).map leValue

/-- The value of a byte stored into a (signed) `char`. -/
def toChar (b : Nat) : Int :=
  if b % 256 < 128 then ((b % 256 : Nat) : Int) else ((b % 256 : Nat) : Int) - 256

/-- Conversion of an `unsigned long` value to `int` (the low 32 bits, two's
complement). -/
def toInt32 (x : Nat) : Int :=
  if x % 2 ^ 32 < 2 ^ 31 then ((x % 2 ^ 32 : Nat) : Int) else ((x % 2 ^ 32 : Nat) : Int) - 2 ^ 32

/-- The expression `dir_ent.record_length - 2 - D_ULONG_SIZE - USHORT_SIZE`
of line 96, after macro expansion
`record_length - 2 - sizeof(unsigned long)*2 - sizeof(unsigned short)`:
`record_length - 2` in `int`, converted to `unsigned long`, the two
subtractions modulo `2^64`, and the result converted to `int`. -/
def nameLength (record_length : Nat) : Int :=
  let t0 : Int := (record_length : Int) - 2
  let t1 : Nat := (t0 % 2 ^ 64).toNat
  let t2 : Nat := (t1 + (2 ^ 64 - ULONG_SIZE * 2)) % 2 ^ 64
  let t3 : Nat := (t2 + (2 ^ 64 - USHORT_SIZE)) % 2 ^ 64
  toInt32 t3

/-! ## lookupFiletype (ls_2.c, lines 183-204) -/

/-- The function `lookupFiletype`; `none` is the `NULL` result. -/
def lookupFiletype (type : Int) : Option String :=
  if type = DT_UNKNOWN then some "Unknown"
  else if type = DT_REG then some "Regular"
  else if type = DT_DIR then some "Directory"
  else if type = DT_CHR then some "Character Device"
  else if type = DT_BLK then some "Block Device"
  else if type = DT_FIFO then some "Buffer"
  else if type = DT_SOCK then some "Socket"
  else if type = DT_LNK then some "Symbolic Link"
  else none

/-! ## The decode loop of main (ls_2.c, lines 87-123) -/

/-- Lines 92-101 of one iteration: the three header fields, `name_length`, the
name copy and the type byte, read at `index`. -/
def readEntry (full_block : List Nat) (index : Nat) : Except Exit DirEntry :=
  match readUnsigned full_block index ULONG_SIZE with
  | none => .error .outOfBlock
  | some inode_num =>
  match readUnsigned full_block (ULONG_SIZE + index) ULONG_SIZE with
  | none => .error .outOfBlock
  | some offset =>
  match readUnsigned full_block (D_ULONG_SIZE + index) USHORT_SIZE with
  | none => .error .outOfBlock
  | some record_length =>
  let name_length := nameLength record_length
  if name_length < 0 then .error .negativeNameLength
  else
  match readBytes full_block (ADD_DULONG_USHORT + index) name_length.toNat with
  | none => .error .outOfBlock
  | some file_name =>
  match readBytes full_block (index + record_length - 1) 1 with
  | none => .error .outOfBlock
  | some type_bytes =>
    .ok { inode_num := inode_num, offset := offset, record_length := record_length,
          file_name := file_name, file_type := toChar (leValue type_bytes) }

/-- Puts a printed line in front of what the rest of the run prints. -/
def Outcome.emit (e : Emitted) (r : Outcome) : Outcome :=
  { r with emitted := e :: r.emitted }

/-- The loop `while (index < numread)` of lines 90-123, with `fuel` bounding
the number of iterations.  After the reads, `index` is advanced (line 103),
then the type is looked up (lines 105-111) and the iteration goes on to the
print of lines 113-121: its entry is recorded in `emitted`, and the line it
writes is `printedLine` of that record. -/
def loop (full_block : List Nat) (numread : Nat) : Nat → Nat → Outcome
  | fuel, index =>
    if index < numread then
      match fuel with
      | 0 => { emitted := [], exit := .outOfFuel }
      | fuel + 1 =>
        match readEntry full_block index with
        | .error x => { emitted := [], exit := x }
        | .ok dir_ent =>
          let next_index := index + dir_ent.record_length
          match lookupFiletype dir_ent.file_type with
          | none => { emitted := [], exit := .fatalUnknownFiletype }
          | some _ =>
            Outcome.emit { cursor := index, entry := dir_ent }
              (loop full_block numread fuel next_index)
    else { emitted := [], exit := .success }

/-- The decode loop of `main`, from `index = 0`.  Every completed iteration
advances `index` by at least 20, so `numread` iterations always suffice (see
`loop_exit_ne_outOfFuel`). -/
def decodeLoop (full_block : List Nat) (numread : Nat) : Outcome :=
  loop full_block numread numread 0

/-- The cut of a byte sequence at its first NUL: the bytes before it, and the
whole sequence when it holds none.  This is the visible name that the
specification gives to a name slice; it is not what the program prints, which
is `printfString` of the name buffer. -/
def visibleName (file_name : List Nat) : List Nat :=
  file_name.takeWhile (fun b => b != 0)

/-- The conversion `%s` of `printf` (lines 115 and 119) applied to a pointer to
a heap object that holds exactly `bytes`: the bytes before the first NUL are
printed.  When the object holds no NUL the read runs past its end, which is
undefined: `none`. -/
def printfString (bytes : List Nat) : Option (List Nat) :=
  if 0 ∈ bytes then some (bytes.takeWhile (fun b => b != 0)) else none

/-- The offsets of `full_block` that the `memcpy` calls of lines 92-101 are
asked to read in one iteration at `index`, in program order; the list stops
after a call that the model does not complete. -/
def readEntryOffsets (full_block : List Nat) (index : Nat) : List Nat :=
  List.range' index ULONG_SIZE ++
  match readUnsigned full_block index ULONG_SIZE with
  | none => []
  | some _ =>
  List.range' (ULONG_SIZE + index) ULONG_SIZE ++
  match readUnsigned full_block (ULONG_SIZE + index) ULONG_SIZE with
  | none => []
  | some _ =>
  List.range' (D_ULONG_SIZE + index) USHORT_SIZE ++
  match readUnsigned full_block (D_ULONG_SIZE + index) USHORT_SIZE with
  | none => []
  | some record_length =>
  let name_length := nameLength record_length
  if name_length < 0 then []
  else
  List.range' (ADD_DULONG_USHORT + index) name_length.toNat ++
  match readBytes full_block (ADD_DULONG_USHORT + index) name_length.toNat with
  | none => []
  | some _ => [index + record_length - 1]

/-- The offsets of `full_block` read by the whole loop, iteration after
iteration, following `loop`. -/
def loopOffsets (full_block : List Nat) (numread : Nat) : Nat → Nat → List Nat
  | fuel, index =>
    if index < numread then
      match fuel with
      | 0 => []
      | fuel + 1 =>
        readEntryOffsets full_block index ++
        match readEntry full_block index with
        | .error _ => []
        | .ok dir_ent =>
          match lookupFiletype dir_ent.file_type with
          | none => []
          | some _ => loopOffsets full_block numread fuel (index + dir_ent.record_length)
    else []

/-! ## parseArgs and the start of main (ls_2.c, lines 39-42, 51-64, 134-172) -/

/-- The struct `Args`. -/
structure Args where
  more_info : Int
  normal : Int
  help : Int
  deriving DecidableEq, Repr

/-- The function `parseArgs`; `argc` is the length of `argv` and `none` is the
`NULL` result.  `strcmp(argv[1], s) == 0` is equality of the strings. -/
def parseArgs (argv : List String) : Option Args :=
  let argc := argv.length
  if argc = 1 then
    some { help := 0, more_info := 0, normal := 1 }
  else if argc = 2 then
    if argv.getD 1 "" = "-l" then
      some { more_info := 1, help := 0, normal := 0 }
    else if argv.getD 1 "" = "-h" then
      some { more_info := 0, help := 1, normal := 0 }
    else none
  else none

/-- How `main` goes on after `parseArgs` (lines 53-64). -/
inductive Startup where
  /-- The call `fatal("could not parse command line parameters. ...")`, which
  ends the program with `EXIT_FAILURE`. -/
  | fatalParse
  /-- The call `help()` followed by `exit(EXIT_SUCCESS)`. -/
  | helpExit
  /-- The directory is opened and listed with these flags. -/
  | list (args : Args)
  deriving DecidableEq, Repr

/-- Lines 53-64 of `main`. -/
def mainStartup (argv : List String) : Startup :=
  match parseArgs argv with
  | none => .fatalParse
  | some args => if args.help ≠ 0 then .helpExit else .list args

/-! ## The printing of an entry (ls_2.c, lines 113-121) -/

/-- The value that `%ld` shows for an `unsigned long` argument: the same 64
bits read as a signed `long`. -/
def toInt64 (x : Nat) : Int :=
  if x % 2 ^ 64 < 2 ^ 63 then ((x % 2 ^ 64 : Nat) : Int) else ((x % 2 ^ 64 : Nat) : Int) - 2 ^ 64

/-- What one iteration writes to the standard output, field by field. -/
inductive Printed where
  /-- The `printf("%s\n", ...)` of line 115: the file name. -/
  | name (file_name : List Nat)
  /-- The `printf` of lines 119-120: inode number and offset (both through
  `%8ld`), record length (`%8d`), file type label and file name (`%8s`). -/
  | info (inode_num offset record_length : Int) (filetype : String) (file_name : List Nat)
  /-- Neither `normal` nor `more_info` is set: nothing is written. -/
  | nothing
  deriving DecidableEq, Repr

/-- Lines 113-121: the line written for `dir_ent` with the label `filetype`
that `lookupFiletype` returned.  The name goes through `%s`, so the result is
`none` (undefined) when the name buffer holds no NUL. -/
def printEntry (args : Args) (dir_ent : DirEntry) (filetype : String) : Option Printed :=
  if args.normal ≠ 0 then
    (printfString dir_ent.file_name).map Printed.name
  else if args.more_info ≠ 0 then
    (printfString dir_ent.file_name).map
      (Printed.info (toInt64 dir_ent.inode_num) (toInt64 dir_ent.offset)
        (dir_ent.record_length : Int) filetype)
  else some Printed.nothing

/-- The line written in the iteration that emitted `x`: lines 105-121 applied
to its entry.  The lookup cannot fail there, as the loop has gone past the
call to `fatal`; `none` is the undefined print of a name buffer without a
NUL. -/
def printedLine (args : Args) (x : Emitted) : Option Printed :=
  match lookupFiletype x.entry.file_type with
  | none => none
  | some filetype => printEntry args x.entry filetype

/-! ## Records and cursors of a block

Total accessors for what a block holds at a cursor, used to state where the
loop reads and what it finds there. -/

/-- The `n` cells of `full_block` from `start` on. -/
def cells (full_block : List Nat) (start : Nat) : Nat → List Nat
  | 0 => []
  | n + 1 => byteAt full_block start :: cells full_block (start + 1) n

/-- The 16-bit record length stored in the header of the record at cursor `c`. -/
def recLenAt (full_block : List Nat) (c : Nat) : Nat :=
  leValue (cells full_block (c + 16) 2)

/-- The type byte of the record at cursor `c`, as a `char`: the last byte of
the record. -/
def typeAt (full_block : List Nat) (c : Nat) : Int :=
  toChar (byteAt full_block (c + recLenAt full_block c - 1))

/-- The fields of the record at cursor `c`. -/
def entryAt (full_block : List Nat) (c : Nat) : DirEntry :=
  { inode_num := leValue (cells full_block c 8)
    offset := leValue (cells full_block (c + 8) 8)
    record_length := recLenAt full_block c
    file_name := cells full_block (c + 18) (recLenAt full_block c - 20)
    file_type := typeAt full_block c }

/-- The cursor reached from `c` after `k` records, each one found by adding
the record length of the one before. -/
def cursorFrom (full_block : List Nat) : Nat → Nat → Nat
  | c, 0 => c
  | c, k + 1 => cursorFrom full_block (c + recLenAt full_block c) k

/-- The `k` records of the chain that starts at cursor `c`, with their cursors. -/
def recordsFrom (full_block : List Nat) : Nat → Nat → List Emitted
  | _, 0 => []
  | c, k + 1 =>
    { cursor := c, entry := entryAt full_block c }
      :: recordsFrom full_block (c + recLenAt full_block c) k

/-- The record at cursor `c` has at least the 20 bytes of header and footer
and a type byte that `lookupFiletype` recognises. -/
def GoodRecord (full_block : List Nat) (c : Nat) : Prop :=
  20 ≤ recLenAt full_block c ∧ (lookupFiletype (typeAt full_block c)).isSome = true

/-- A well-formed block of `n` records: `numread` is within the block, each of
the `n` records of the chain from cursor 0 is good, and the chain ends at
`numread` exactly. -/
def WellFormed (full_block : List Nat) (numread n : Nat) : Prop :=
  numread ≤ BLOCK_SIZE ∧
  (∀ k, k < n → GoodRecord full_block (cursorFrom full_block 0 k)) ∧
  cursorFrom full_block 0 n = numread

/-! ## The packing layout of the specification

The documented layout of a record, used to build synthetic blocks: 8-byte
inode number, 8-byte next offset, 2-byte record length, the name bytes, one
zero padding byte, one type byte. -/

/-- The closed enumeration of file types of the specification. -/
inductive SpecFileType where
  | Unknown | RegularFile | Directory | CharacterDevice
  | BlockDevice | FIFO | Socket | SymbolicLink
  deriving DecidableEq, Repr

/-- The raw type code of each variant. -/
def SpecFileType.code : SpecFileType → Nat
  | .Unknown => 0
  | .FIFO => 1
  | .CharacterDevice => 2
  | .Directory => 4
  | .BlockDevice => 6
  | .RegularFile => 8
  | .SymbolicLink => 10
  | .Socket => 12

/-- A tuple to pack: inode number, file type and name, with the next-offset
value the record is to carry. -/
structure SpecTuple where
  inode_number : Nat
  next_offset : Nat
  file_type : SpecFileType
  name : List Nat
  deriving DecidableEq, Repr

/-- The `size` little-endian bytes of `v`. -/
def leBytes : Nat → Nat → List Nat
  | 0, _ => []
  | size + 1, v => v % 256 :: leBytes size (v / 256)

/-- One record in the documented layout; its length is `name.length + 20`. -/
def specPackRecord (t : SpecTuple) : List Nat :=
  leBytes 8 t.inode_number ++ leBytes 8 t.next_offset ++ leBytes 2 (t.name.length + 20)
    ++ t.name ++ [0] ++ [t.file_type.code]

/-- The records of the tuples, packed in order. -/
def specPack : List SpecTuple → List Nat
  | [] => []
  | t :: ts => specPackRecord t ++ specPack ts

/-- A tuple that the layout can carry: both integers fit 64 bits and the name
is made of non-NUL bytes. -/
def SpecTuple.Valid (t : SpecTuple) : Prop :=
  t.inode_number < 2 ^ 64 ∧ t.next_offset < 2 ^ 64 ∧ ∀ b ∈ t.name, b < 256 ∧ b ≠ 0

/-- The entry a tuple stands for. -/
def SpecTuple.toEntry (t : SpecTuple) : DirEntry :=
  { inode_num := t.inode_number, offset := t.next_offset,
    record_length := t.name.length + 20, file_name := t.name,
    file_type := (t.file_type.code : Int) }

/-- The record length of a kernel-aligned record for a name of `n` bytes: the
20 bytes of header, terminating NUL and type byte included, rounded up to a
multiple of 8. -/
def kernelRecLen (n : Nat) : Nat := (n + 20 + 7) / 8 * 8

/-- A kernel-aligned record: the documented layout with the name followed by
NUL bytes up to the type byte, which is the last byte of the record. -/
def specKernelRecord (t : SpecTuple) : List Nat :=
  leBytes 8 t.inode_number ++ leBytes 8 t.next_offset
    ++ leBytes 2 (kernelRecLen t.name.length) ++ t.name
    ++ List.replicate (kernelRecLen t.name.length - t.name.length - 19) 0
    ++ [t.file_type.code]

/-- The lines the loop is to print for the tuples packed from cursor `c` on. -/
def specEmitted : Nat → List SpecTuple → List Emitted
  | _, [] => []
  | c, t :: ts =>
    { cursor := c, entry := t.toEntry } :: specEmitted (c + (t.name.length + 20)) ts

instance (buf : List Nat) (c : Nat) : Decidable (GoodRecord buf c) := by
  unfold GoodRecord; infer_instance

instance (buf : List Nat) (numread n : Nat) : Decidable (WellFormed buf numread n) := by
  unfold WellFormed; infer_instance

instance (t : SpecTuple) : Decidable t.Valid := by
  unfold SpecTuple.Valid; infer_instance

/-! ## Example blocks -/

/-- The two tuples of the concrete scenario: inode 2, a directory named `.`,
then inode 5, a regular file named `a.txt`. -/
def exampleTuples : List SpecTuple :=
  [ { inode_number := 2, next_offset := 1, file_type := .Directory, name := [46] },
    { inode_number := 5, next_offset := 2, file_type := .RegularFile,
      name := [97, 46, 116, 120, 116] } ]

/-- The 46 bytes that pack `exampleTuples`: a record of 21 bytes at cursor 0
and one of 25 bytes at cursor 21. -/
def exampleBlock : List Nat := specPack exampleTuples

/-- A record for `.`, then a record of 25 bytes whose type byte is `0xFF`,
then a record for a regular file `b`: 67 bytes. -/
def exampleBadTypeBlock : List Nat :=
  specPackRecord { inode_number := 2, next_offset := 1, file_type := .Directory, name := [46] }
    ++ (leBytes 8 5 ++ leBytes 8 2 ++ leBytes 2 25 ++ [97, 46, 116, 120, 116] ++ [0] ++ [255])
    ++ specPackRecord { inode_number := 7, next_offset := 3, file_type := .RegularFile,
                        name := [98] }

/-- A record for `.`, then a header that declares a record length of 19. -/
def exampleShortBlock : List Nat :=
  specPackRecord { inode_number := 2, next_offset := 1, file_type := .Directory, name := [46] }
    ++ (leBytes 8 5 ++ leBytes 8 2 ++ leBytes 2 19 ++ [8])

/-- One record with an empty name: 20 bytes, type byte `DT_REG`. -/
def exampleEmptyNameBlock : List Nat :=
  specPackRecord { inode_number := 9, next_offset := 1, file_type := .RegularFile, name := [] }

/-- A regular file named `test`, inode 12: its name has 4 bytes and
`(4 + 20) mod 8 = 0`. -/
def exampleTestTuple : SpecTuple :=
  { inode_number := 12, next_offset := 24, file_type := .RegularFile,
    name := [116, 101, 115, 116] }

/-- The kernel-aligned record of `exampleTestTuple`: 24 bytes. -/
def exampleTestBlock : List Nat := specKernelRecord exampleTestTuple

/-- A regular file named `ab`, inode 13, in a kernel-aligned record of 24
bytes: the name is followed by three NUL bytes. -/
def examplePaddedBlock : List Nat :=
  specKernelRecord { inode_number := 13, next_offset := 24, file_type := .RegularFile,
                     name := [97, 98] }

/-! ## Arithmetic of the conversions -/

theorem nameLength_eq (rl : Nat) (h : rl < 65536) : nameLength rl = (rl : Int) - 20 := by
  simp only [nameLength, toInt32, ULONG_SIZE, USHORT_SIZE]
  omega

theorem byteAt_lt (buf : List Nat) (i : Nat) : byteAt buf i < 256 :=
  Nat.mod_lt _ (by decide)

theorem leValue_two_lt (a b : Nat) (ha : a < 256) (hb : b < 256) :
    leValue [a, b] < 65536 := by
  simp only [leValue]
  omega

theorem recLenAt_lt (buf : List Nat) (c : Nat) : recLenAt buf c < 65536 := by
  unfold recLenAt
  simp only [cells]
  exact leValue_two_lt _ _ (byteAt_lt _ _) (byteAt_lt _ _)

/-! ## The reads of one iteration -/

theorem readBytes_eq (buf : List Nat) (n start : Nat) :
    readBytes buf start n =
      if n = 0 ∨ start + n ≤ BLOCK_SIZE then some (cells buf start n) else none := by
  induction n generalizing start with
  | zero => simp [readBytes, cells]
  | succ n ih =>
    simp only [readBytes, cells, ih]
    by_cases h : start < BLOCK_SIZE
    · by_cases h2 : start + (n + 1) ≤ BLOCK_SIZE
      · have h3 : n = 0 ∨ start + 1 + n ≤ BLOCK_SIZE := Or.inr (by omega)
        simp [h, h2, h3]
      · have h3 : ¬ (n = 0 ∨ start + 1 + n ≤ BLOCK_SIZE) := by
          unfold BLOCK_SIZE at *
          omega
        simp [h, h2, h3]
    · have h2 : ¬ start + (n + 1) ≤ BLOCK_SIZE := by omega
      simp [h, h2]

theorem readBytes_some (buf : List Nat) (n start : Nat) (h : start + n ≤ BLOCK_SIZE) :
    readBytes buf start n = some (cells buf start n) := by
  rw [readBytes_eq]; exact if_pos (Or.inr h)

theorem readBytes_none (buf : List Nat) (n start : Nat) (hn : 0 < n)
    (h : BLOCK_SIZE < start + n) : readBytes buf start n = none := by
  rw [readBytes_eq]; exact if_neg (by omega)

theorem readEntry_eq (buf : List Nat) (i : Nat) :
    readEntry buf i =
      if BLOCK_SIZE < i + 18 then .error .outOfBlock
      else if recLenAt buf i < 20 then .error .negativeNameLength
      else if BLOCK_SIZE < i + recLenAt buf i then .error .outOfBlock
      else .ok (entryAt buf i) := by
  have hrl := recLenAt_lt buf i
  have hnl := nameLength_eq _ hrl
  have e16 : D_ULONG_SIZE + i = i + 16 := by unfold D_ULONG_SIZE ULONG_SIZE; omega
  have e8 : ULONG_SIZE + i = i + 8 := by unfold ULONG_SIZE; omega
  have e18 : ADD_DULONG_USHORT + i = i + 18 := by
    unfold ADD_DULONG_USHORT D_ULONG_SIZE ULONG_SIZE USHORT_SIZE; omega
  have u8 : ULONG_SIZE = 8 := rfl
  have u2 : USHORT_SIZE = 2 := rfl
  have c8 : 8 + i = i + 8 := Nat.add_comm 8 i
  simp only [readEntry, readUnsigned, e16, e8, e18, u8, u2, c8]
  by_cases h1 : BLOCK_SIZE < i + 18
  · rw [if_pos h1]
    by_cases h8 : i + 8 ≤ BLOCK_SIZE
    · rw [readBytes_some buf 8 i h8]
      by_cases h16 : i + 8 + 8 ≤ BLOCK_SIZE
      · rw [readBytes_some buf 8 (i + 8) h16,
          readBytes_none buf 2 (i + 16) (by decide) (by omega)]
        rfl
      · rw [readBytes_none buf 8 (i + 8) (by decide) (by omega)]
        rfl
    · rw [readBytes_none buf 8 i (by decide) (by omega)]
      rfl
  · rw [if_neg h1, readBytes_some buf 8 i (by omega), readBytes_some buf 8 (i + 8) (by omega),
      readBytes_some buf 2 (i + 16) (by omega)]
    have hrec : leValue (cells buf (i + 16) 2) = recLenAt buf i := rfl
    simp only [Option.map_some', hrec, hnl]
    by_cases h2 : recLenAt buf i < 20
    · have hneg : (recLenAt buf i : Int) - 20 < 0 := by omega
      rw [if_pos h2, if_pos hneg]
    · have hn : ¬ ((recLenAt buf i : Int) - 20 < 0) := by omega
      have htn : ((recLenAt buf i : Int) - 20).toNat = recLenAt buf i - 20 := by omega
      rw [if_neg h2, if_neg hn, htn]
      by_cases h3 : BLOCK_SIZE < i + recLenAt buf i
      · rw [if_pos h3, readBytes_none buf 1 (i + recLenAt buf i - 1) (by decide) (by omega)]
        cases readBytes buf (i + 18) (recLenAt buf i - 20) <;> rfl
      · rw [if_neg h3, readBytes_some buf 1 (i + recLenAt buf i - 1) (by omega),
          readBytes_some buf (recLenAt buf i - 20) (i + 18) (by omega)]
        simp only [entryAt, typeAt, cells, leValue]
        simp

/-! ## The loop: unfolding, fuel, and runs over good records -/

theorem loop_done (buf : List Nat) (numread f i : Nat) (h : ¬ i < numread) :
    loop buf numread f i = { emitted := [], exit := .success } := by
  unfold loop
  rw [if_neg h]

theorem loop_succ (buf : List Nat) (numread f i : Nat) (h : i < numread) :
    loop buf numread (f + 1) i =
      match readEntry buf i with
      | .error x => { emitted := [], exit := x }
      | .ok dir_ent =>
        match lookupFiletype dir_ent.file_type with
        | none => { emitted := [], exit := .fatalUnknownFiletype }
        | some _ =>
          Outcome.emit { cursor := i, entry := dir_ent }
            (loop buf numread f (i + dir_ent.record_length)) := by
  rw [loop, if_pos h]

theorem readEntry_ok_inv (buf : List Nat) (i : Nat) (e : DirEntry)
    (h : readEntry buf i = .ok e) :
    e = entryAt buf i ∧ 20 ≤ recLenAt buf i ∧ i + recLenAt buf i ≤ BLOCK_SIZE := by
  rw [readEntry_eq] at h
  split at h
  · cases h
  · split at h
    · cases h
    · split at h
      · cases h
      · injection h with h
        exact ⟨h.symm, by omega, by omega⟩

/-- Any two amounts of fuel that cover the bytes left give the same run. -/
theorem loop_fuel_irrel (buf : List Nat) (numread : Nat) :
    ∀ (f1 f2 i : Nat), numread ≤ f1 + i → numread ≤ f2 + i →
      loop buf numread f1 i = loop buf numread f2 i := by
  intro f1
  induction f1 with
  | zero =>
    intro f2 i h1 _
    rw [loop_done buf numread 0 i (by omega), loop_done buf numread f2 i (by omega)]
  | succ f1 ih =>
    intro f2 i h1 h2
    by_cases hi : i < numread
    · obtain ⟨g, rfl⟩ : ∃ g, f2 = g + 1 := ⟨f2 - 1, by omega⟩
      rw [loop_succ buf numread f1 i hi, loop_succ buf numread g i hi]
      cases hre : readEntry buf i with
      | error x => rfl
      | ok e =>
        obtain ⟨he, h20, _⟩ := readEntry_ok_inv buf i e hre
        have hlen : e.record_length = recLenAt buf i := by rw [he]; rfl
        simp only []
        rw [ih g (i + e.record_length) (by omega) (by omega)]
    · rw [loop_done buf numread _ i hi, loop_done buf numread f2 i hi]

/-- With fuel covering the bytes left, the loop never stops for lack of fuel. -/
theorem loop_exit_ne_outOfFuel (buf : List Nat) (numread : Nat) :
    ∀ (f i : Nat), numread ≤ f + i → (loop buf numread f i).exit ≠ .outOfFuel := by
  intro f
  induction f with
  | zero =>
    intro i h
    rw [loop_done buf numread 0 i (by omega)]
    simp
  | succ f ih =>
    intro i h
    by_cases hi : i < numread
    · rw [loop_succ buf numread f i hi]
      cases hre : readEntry buf i with
      | error x =>
        rw [readEntry_eq] at hre
        simp only []
        split at hre
        · cases hre; simp
        · split at hre
          · cases hre; simp
          · split at hre
            · cases hre; simp
            · cases hre
      | ok e =>
        obtain ⟨he, h20, _⟩ := readEntry_ok_inv buf i e hre
        have hlen : e.record_length = recLenAt buf i := by rw [he]; rfl
        simp only []
        cases lookupFiletype e.file_type with
        | none => simp
        | some l =>
          simp only [Outcome.emit]
          exact ih (i + e.record_length) (by omega)
    · rw [loop_done buf numread _ i hi]
      simp

/-- One iteration over a good record inside the block: the entry is printed
and the loop goes on at the next cursor. -/
theorem loop_good (buf : List Nat) (numread f i : Nat) (hi : i < numread)
    (hg : GoodRecord buf i) (hb : i + recLenAt buf i ≤ BLOCK_SIZE) (hf : numread ≤ f + i) :
    loop buf numread f i =
      Outcome.emit { cursor := i, entry := entryAt buf i }
        (loop buf numread f (i + recLenAt buf i)) := by
  obtain ⟨g, rfl⟩ : ∃ g, f = g + 1 := ⟨f - 1, by omega⟩
  have hre : readEntry buf i = .ok (entryAt buf i) := by
    rw [readEntry_eq, if_neg (by have := hg.1; omega), if_neg (by have := hg.1; omega),
      if_neg (by omega)]
  rw [loop_succ buf numread g i hi, hre]
  have hty : (entryAt buf i).file_type = typeAt buf i := rfl
  have hlen : (entryAt buf i).record_length = recLenAt buf i := rfl
  obtain ⟨l, hl⟩ := Option.isSome_iff_exists.mp hg.2
  simp only [hty, hl, hlen]
  rw [loop_fuel_irrel buf numread g (g + 1) (i + recLenAt buf i)
    (by have := hg.1; omega) (by omega)]

/-- One iteration over a record of at least 20 bytes inside the block whose
type byte is not recognised: the call to `fatal`, nothing printed. -/
theorem loop_unknown (buf : List Nat) (numread f i : Nat) (hi : i < numread)
    (h20 : 20 ≤ recLenAt buf i) (hb : i + recLenAt buf i ≤ BLOCK_SIZE)
    (hty : lookupFiletype (typeAt buf i) = none) (hf : numread ≤ f + i) :
    loop buf numread f i = { emitted := [], exit := .fatalUnknownFiletype } := by
  obtain ⟨g, rfl⟩ : ∃ g, f = g + 1 := ⟨f - 1, by omega⟩
  have hre : readEntry buf i = .ok (entryAt buf i) := by
    rw [readEntry_eq, if_neg (by omega), if_neg (by omega), if_neg (by omega)]
  rw [loop_succ buf numread g i hi, hre]
  have hty2 : (entryAt buf i).file_type = typeAt buf i := rfl
  simp only [hty2, hty]

/-- One iteration over a record that declares fewer than 20 bytes: the name
length is negative and the run has no defined continuation. -/
theorem loop_short (buf : List Nat) (numread f i : Nat) (hi : i < numread)
    (hb : i + 18 ≤ BLOCK_SIZE) (hs : recLenAt buf i < 20) (hf : numread ≤ f + i) :
    loop buf numread f i = { emitted := [], exit := .negativeNameLength } := by
  obtain ⟨g, rfl⟩ : ∃ g, f = g + 1 := ⟨f - 1, by omega⟩
  have hre : readEntry buf i = .error .negativeNameLength := by
    rw [readEntry_eq, if_neg (by omega), if_pos hs]
  rw [loop_succ buf numread g i hi, hre]

/-! ## Cursors and records of a chain -/

theorem cursorFrom_succ (buf : List Nat) (k c : Nat) :
    cursorFrom buf c (k + 1) = cursorFrom buf c k + recLenAt buf (cursorFrom buf c k) := by
  induction k generalizing c with
  | zero => rfl
  | succ k ih =>
    show cursorFrom buf (c + recLenAt buf c) (k + 1) = _
    rw [ih]
    rfl

theorem cursorFrom_mono (buf : List Nat) (c j k : Nat) (h : j ≤ k) :
    cursorFrom buf c j ≤ cursorFrom buf c k := by
  induction k with
  | zero =>
    have : j = 0 := by omega
    subst this
    exact Nat.le_refl _
  | succ k ih =>
    by_cases hj : j = k + 1
    · subst hj
      exact Nat.le_refl _
    · have := ih (by omega)
      rw [cursorFrom_succ]
      omega

theorem recordsFrom_length (buf : List Nat) (k c : Nat) :
    (recordsFrom buf c k).length = k := by
  induction k generalizing c with
  | zero => rfl
  | succ k ih => simp [recordsFrom, ih]

theorem recordsFrom_getElem? (buf : List Nat) (k c j : Nat) (h : j < k) :
    (recordsFrom buf c k)[j]? =
      some { cursor := cursorFrom buf c j, entry := entryAt buf (cursorFrom buf c j) } := by
  induction k generalizing c j with
  | zero => omega
  | succ k ih =>
    cases j with
    | zero => simp [recordsFrom, cursorFrom]
    | succ j =>
      simp only [recordsFrom, List.getElem?_cons_succ]
      rw [ih (c + recLenAt buf c) j (by omega)]
      rfl

theorem recordsFrom_getElem?_inv (buf : List Nat) (k c j : Nat) (e : Emitted)
    (h : (recordsFrom buf c k)[j]? = some e) :
    j < k ∧ e.cursor = cursorFrom buf c j ∧ e.entry = entryAt buf (cursorFrom buf c j) := by
  have hj : j < k := by
    by_contra hn
    rw [List.getElem?_eq_none (by rw [recordsFrom_length]; omega)] at h
    cases h
  rw [recordsFrom_getElem? buf k c j hj] at h
  injection h with h
  subst h
  exact ⟨hj, rfl, rfl⟩

theorem recordsFrom_sum (buf : List Nat) (k c : Nat) :
    c + ((recordsFrom buf c k).map (fun e => e.entry.record_length)).sum
      = cursorFrom buf c k := by
  induction k generalizing c with
  | zero => simp [recordsFrom, cursorFrom]
  | succ k ih =>
    simp only [recordsFrom, cursorFrom, List.map_cons, List.sum_cons]
    rw [← ih (c + recLenAt buf c)]
    have : (entryAt buf c).record_length = recLenAt buf c := rfl
    rw [this]
    omega

/-- The loop over `k` good records inside the block prints them and goes on at
the cursor after them. -/
theorem loop_records (buf : List Nat) (numread f : Nat) :
    ∀ (k c : Nat), numread ≤ f + c →
      (∀ j, j < k → cursorFrom buf c j < numread ∧ GoodRecord buf (cursorFrom buf c j) ∧
        cursorFrom buf c (j + 1) ≤ BLOCK_SIZE) →
      loop buf numread f c =
        { emitted := recordsFrom buf c k ++ (loop buf numread f (cursorFrom buf c k)).emitted
          exit := (loop buf numread f (cursorFrom buf c k)).exit } := by
  intro k
  induction k with
  | zero => intro c _ _; rfl
  | succ k ih =>
    intro c hf h
    obtain ⟨h0, hg, hb⟩ := h 0 (by omega)
    rw [loop_good buf numread f c h0 hg hb hf]
    rw [ih (c + recLenAt buf c) (by omega) (fun j hj => h (j + 1) (by omega))]
    rfl

/-- Whatever the block holds, what the loop prints is an initial stretch of
the record chain from its starting cursor, made of good records inside the
block, each reached below `numread`. -/
theorem loop_emitted_records (buf : List Nat) (numread : Nat) :
    ∀ (f c : Nat), ∃ k, (loop buf numread f c).emitted = recordsFrom buf c k ∧
      ∀ j, j < k → cursorFrom buf c j < numread ∧ GoodRecord buf (cursorFrom buf c j) ∧
        cursorFrom buf c (j + 1) ≤ BLOCK_SIZE := by
  intro f
  induction f with
  | zero =>
    intro c
    refine ⟨0, ?_, fun j hj => by omega⟩
    unfold loop
    split <;> rfl
  | succ f ih =>
    intro c
    by_cases hc : c < numread
    · rw [loop_succ buf numread f c hc]
      cases hre : readEntry buf c with
      | error x => exact ⟨0, rfl, fun j hj => by omega⟩
      | ok e =>
        obtain ⟨he, h20, hb⟩ := readEntry_ok_inv buf c e hre
        subst he
        have hty : (entryAt buf c).file_type = typeAt buf c := rfl
        have hlen : (entryAt buf c).record_length = recLenAt buf c := rfl
        simp only [hty, hlen]
        cases hl : lookupFiletype (typeAt buf c) with
        | none => exact ⟨0, rfl, fun j hj => by omega⟩
        | some l =>
          obtain ⟨k, hk, hall⟩ := ih (c + recLenAt buf c)
          refine ⟨k + 1, ?_, ?_⟩
          · simp only [Outcome.emit, hk, recordsFrom]
          · intro j hj
            cases j with
            | zero =>
              have hsome : (lookupFiletype (typeAt buf c)).isSome = true := by rw [hl]; rfl
              exact ⟨hc, ⟨h20, hsome⟩, hb⟩
            | succ j => exact hall j (by omega)
    · rw [loop_done buf numread _ c hc]
      exact ⟨0, rfl, fun j hj => by omega⟩

theorem wellFormed_records (buf : List Nat) (numread n : Nat) (h : WellFormed buf numread n) :
    ∀ j, j < n → cursorFrom buf 0 j < numread ∧ GoodRecord buf (cursorFrom buf 0 j) ∧
      cursorFrom buf 0 (j + 1) ≤ BLOCK_SIZE := by
  obtain ⟨hcap, hgood, htile⟩ := h
  intro j hj
  have h1 := cursorFrom_mono buf 0 (j + 1) n (by omega)
  have h2 := cursorFrom_succ buf j 0
  have hg := hgood j hj
  have h20 := hg.1
  exact ⟨by omega, hg, by omega⟩

/-- On a well-formed block of `n` records the loop prints the `n` records and
ends normally. -/
theorem decodeLoop_of_wellFormed (buf : List Nat) (numread n : Nat)
    (h : WellFormed buf numread n) :
    decodeLoop buf numread = { emitted := recordsFrom buf 0 n, exit := .success } := by
  unfold decodeLoop
  rw [loop_records buf numread numread n 0 (by omega) (wellFormed_records buf numread n h)]
  rw [loop_done buf numread numread _ (by rw [h.2.2]; omega)]
  simp

/-! ## Packed blocks -/

theorem byteAt_append_right (a b : List Nat) (s : Nat) :
    byteAt (a ++ b) (a.length + s) = byteAt b s := by
  unfold byteAt
  rw [List.getD_append_right _ _ _ _ (by omega)]
  simp

theorem cells_append_right (a b : List Nat) (n s : Nat) :
    cells (a ++ b) (a.length + s) n = cells b s n := by
  induction n generalizing s with
  | zero => rfl
  | succ n ih =>
    simp only [cells]
    rw [byteAt_append_right, Nat.add_assoc, ih]

theorem cells_cons_succ (x : Nat) (l : List Nat) (n s : Nat) :
    cells (x :: l) (s + 1) n = cells l s n := by
  have := cells_append_right [x] l n s
  simpa [Nat.add_comm] using this

theorem cells_self (a b : List Nat) (h : ∀ x ∈ a, x < 256) :
    cells (a ++ b) 0 a.length = a := by
  induction a with
  | nil => rfl
  | cons x a ih =>
    simp only [List.cons_append, List.length_cons, cells]
    rw [cells_cons_succ, ih (fun y hy => h y (List.mem_cons_of_mem _ hy))]
    have hx : x < 256 := h x (List.mem_cons_self _ _)
    simp [byteAt, Nat.mod_eq_of_lt hx]

/-- Reading, right after `pre`, as many cells as the piece `a` stored there
has bytes gives `a` back. -/
theorem cells_at (pre a b : List Nat) (m n : Nat) (h : ∀ x ∈ a, x < 256)
    (hm : m = pre.length) (hn : n = a.length) :
    cells (pre ++ (a ++ b)) m n = a := by
  subst hm hn
  have := cells_append_right pre (a ++ b) a.length 0
  rw [Nat.add_zero] at this
  rw [this, cells_self a b h]

theorem leBytes_length (n v : Nat) : (leBytes n v).length = n := by
  induction n generalizing v with
  | zero => rfl
  | succ n ih => simp [leBytes, ih]

theorem leBytes_lt (n v : Nat) : ∀ x ∈ leBytes n v, x < 256 := by
  induction n generalizing v with
  | zero => intro x hx; cases hx
  | succ n ih =>
    intro x hx
    simp only [leBytes, List.mem_cons] at hx
    rcases hx with rfl | hx
    · exact Nat.mod_lt _ (by decide)
    · exact ih _ x hx

theorem leValue_leBytes (n v : Nat) : leValue (leBytes n v) = v % 256 ^ n := by
  induction n generalizing v with
  | zero => simp [leBytes, leValue, Nat.mod_one]
  | succ n ih =>
    simp only [leBytes, leValue, ih]
    rw [pow_succ, Nat.mul_comm (256 ^ n) 256, Nat.mod_mul]

theorem specPackRecord_length (t : SpecTuple) :
    (specPackRecord t).length = t.name.length + 20 := by
  simp [specPackRecord, leBytes_length]
  omega

theorem lookupFiletype_code (ft : SpecFileType) :
    (lookupFiletype (toChar ft.code)).isSome = true := by
  cases ft <;> decide

theorem toChar_code (ft : SpecFileType) : toChar ft.code = (ft.code : Int) := by
  cases ft <;> decide

/-- The record length stored by a packed record is read back. -/
theorem recLenAt_specPackRecord (pre rest : List Nat) (t : SpecTuple)
    (hlen : t.name.length + 20 < 65536) :
    recLenAt (pre ++ (specPackRecord t ++ rest)) pre.length = t.name.length + 20 := by
  have hbuf : pre ++ (specPackRecord t ++ rest) =
      (pre ++ leBytes 8 t.inode_number ++ leBytes 8 t.next_offset) ++
        (leBytes 2 (t.name.length + 20) ++ (t.name ++ [0] ++ [t.file_type.code] ++ rest)) := by
    simp [specPackRecord, List.append_assoc]
  unfold recLenAt
  rw [hbuf, cells_at _ _ _ _ _ (leBytes_lt _ _) (by simp [leBytes_length])
    (by simp [leBytes_length]), leValue_leBytes]
  exact Nat.mod_eq_of_lt hlen

/-- The fields of a packed record are read back. -/
theorem entryAt_specPackRecord (pre rest : List Nat) (t : SpecTuple) (hv : t.Valid)
    (hlen : t.name.length + 20 < 65536) :
    entryAt (pre ++ (specPackRecord t ++ rest)) pre.length = t.toEntry := by
  obtain ⟨hino, hoff, hname⟩ := hv
  have hrl := recLenAt_specPackRecord pre rest t hlen
  have hbuf1 : pre ++ (specPackRecord t ++ rest) =
      pre ++ (leBytes 8 t.inode_number ++ (leBytes 8 t.next_offset ++
        leBytes 2 (t.name.length + 20) ++ t.name ++ [0] ++ [t.file_type.code] ++ rest)) := by
    simp [specPackRecord, List.append_assoc]
  have hbuf2 : pre ++ (specPackRecord t ++ rest) =
      (pre ++ leBytes 8 t.inode_number) ++ (leBytes 8 t.next_offset ++
        (leBytes 2 (t.name.length + 20) ++ t.name ++ [0] ++ [t.file_type.code] ++ rest)) := by
    simp [specPackRecord, List.append_assoc]
  have hbuf4 : pre ++ (specPackRecord t ++ rest) =
      (pre ++ leBytes 8 t.inode_number ++ leBytes 8 t.next_offset ++
        leBytes 2 (t.name.length + 20)) ++ (t.name ++ ([0] ++ [t.file_type.code] ++ rest)) := by
    simp [specPackRecord, List.append_assoc]
  have hbuf5 : pre ++ (specPackRecord t ++ rest) =
      (pre ++ leBytes 8 t.inode_number ++ leBytes 8 t.next_offset ++
        leBytes 2 (t.name.length + 20) ++ t.name ++ [0]) ++ ([t.file_type.code] ++ rest) := by
    simp [specPackRecord, List.append_assoc]
  have f1 : leValue (cells (pre ++ (specPackRecord t ++ rest)) pre.length 8)
      = t.inode_number := by
    rw [hbuf1, cells_at _ _ _ _ _ (leBytes_lt _ _) rfl (by simp [leBytes_length]),
      leValue_leBytes]
    exact Nat.mod_eq_of_lt hino
  have f2 : leValue (cells (pre ++ (specPackRecord t ++ rest)) (pre.length + 8) 8)
      = t.next_offset := by
    rw [hbuf2, cells_at _ _ _ _ _ (leBytes_lt _ _) (by simp [leBytes_length])
      (by simp [leBytes_length]), leValue_leBytes]
    exact Nat.mod_eq_of_lt hoff
  have f4 : cells (pre ++ (specPackRecord t ++ rest)) (pre.length + 18) (t.name.length + 20 - 20)
      = t.name := by
    rw [hbuf4, cells_at _ _ _ _ _ (fun x hx => (hname x hx).1) (by simp [leBytes_length])
      (by simp)]
  have f5 : byteAt (pre ++ (specPackRecord t ++ rest)) (pre.length + (t.name.length + 20) - 1)
      = t.file_type.code := by
    have hc := cells_at (pre ++ leBytes 8 t.inode_number ++ leBytes 8 t.next_offset ++
        leBytes 2 (t.name.length + 20) ++ t.name ++ [0]) [t.file_type.code] rest
        (pre.length + (t.name.length + 20) - 1) 1
        (by intro x hx
            simp only [List.mem_singleton] at hx
            subst hx
            cases t.file_type <;> decide)
        (by simp [leBytes_length]; omega) rfl
    rw [← hbuf5] at hc
    simpa [cells] using hc
  simp only [entryAt, typeAt, hrl, f1, f2, f4, f5, SpecTuple.toEntry, toChar_code]

theorem specEmitted_entries (ts : List SpecTuple) (c : Nat) :
    (specEmitted c ts).map (fun e => e.entry) = ts.map SpecTuple.toEntry := by
  induction ts generalizing c with
  | nil => rfl
  | cons t ts ih => simp [specEmitted, ih]

theorem specPack_length_le (t : SpecTuple) (ts : List SpecTuple) (pre : List Nat) :
    pre.length + (t.name.length + 20) ≤ (pre ++ specPack (t :: ts)).length := by
  simp only [specPack, List.length_append, specPackRecord_length]
  omega

/-- The loop over the records packed after `pre`, started at their cursor,
prints the entries of the tuples and ends normally. -/
theorem loop_specPack (f : Nat) :
    ∀ (ts : List SpecTuple) (pre : List Nat), (∀ t ∈ ts, t.Valid) →
      (pre ++ specPack ts).length ≤ BLOCK_SIZE →
      (pre ++ specPack ts).length ≤ f + pre.length →
      loop (pre ++ specPack ts) (pre ++ specPack ts).length f pre.length =
        { emitted := specEmitted pre.length ts, exit := .success } := by
  intro ts
  induction ts with
  | nil =>
    intro pre _ _ _
    rw [loop_done _ _ _ _ (by simp [specPack])]
    rfl
  | cons t ts ih =>
    intro pre hv hsize hf
    have hle := specPack_length_le t ts pre
    have hB : BLOCK_SIZE = 4096 := rfl
    have hlen : t.name.length + 20 < 65536 := by omega
    have hbuf : pre ++ specPack (t :: ts) = pre ++ (specPackRecord t ++ specPack ts) := rfl
    have hrl : recLenAt (pre ++ specPack (t :: ts)) pre.length = t.name.length + 20 := by
      rw [hbuf]; exact recLenAt_specPackRecord pre _ t hlen
    have hent : entryAt (pre ++ specPack (t :: ts)) pre.length = t.toEntry := by
      rw [hbuf]; exact entryAt_specPackRecord pre _ t (hv t (List.mem_cons_self _ _)) hlen
    have hty : typeAt (pre ++ specPack (t :: ts)) pre.length = toChar t.file_type.code := by
      have h1 : (entryAt (pre ++ specPack (t :: ts)) pre.length).file_type
          = typeAt (pre ++ specPack (t :: ts)) pre.length := rfl
      rw [← h1, hent, toChar_code]
      rfl
    have hgood : GoodRecord (pre ++ specPack (t :: ts)) pre.length := by
      refine ⟨by omega, ?_⟩
      rw [hty]
      exact lookupFiletype_code _
    rw [loop_good _ _ f pre.length (by omega) hgood (by omega) hf, hrl, hent]
    have hbuf2 : pre ++ specPack (t :: ts) = (pre ++ specPackRecord t) ++ specPack ts := by
      simp [specPack, List.append_assoc]
    have hpl : pre.length + (t.name.length + 20) = (pre ++ specPackRecord t).length := by
      rw [List.length_append, specPackRecord_length]
    rw [hpl, hbuf2]
    rw [ih (pre ++ specPackRecord t) (fun u hu => hv u (List.mem_cons_of_mem _ hu))
      (by rw [← hbuf2]; exact hsize) (by rw [← hbuf2, ← hpl]; omega)]
    simp only [Outcome.emit, specEmitted, hpl]

theorem cursorFrom_ge (buf : List Nat) (k : Nat)
    (h : ∀ j, j < k → GoodRecord buf (cursorFrom buf 0 j)) :
    20 * k ≤ cursorFrom buf 0 k := by
  induction k with
  | zero => exact Nat.zero_le _
  | succ k ih =>
    have h1 := ih (fun j hj => h j (by omega))
    have h2 := (h k (by omega)).1
    rw [cursorFrom_succ]
    omega

/-- A chain of good records whose last cursor is still inside the block and
below `numread` is a chain the loop walks. -/
theorem reached_records (buf : List Nat) (numread k : Nat)
    (hgood : ∀ j, j < k → GoodRecord buf (cursorFrom buf 0 j))
    (hreach : cursorFrom buf 0 k < numread) (hblock : cursorFrom buf 0 k ≤ BLOCK_SIZE) :
    ∀ j, j < k → cursorFrom buf 0 j < numread ∧ GoodRecord buf (cursorFrom buf 0 j) ∧
      cursorFrom buf 0 (j + 1) ≤ BLOCK_SIZE := by
  intro j hj
  have h1 := cursorFrom_mono buf 0 (j + 1) k (by omega)
  have h2 := cursorFrom_succ buf j 0
  have h20 := (hgood j hj).1
  exact ⟨by omega, hgood j hj, by omega⟩

/-! ## Where the fields of an entry come from -/

theorem cells_eq_map (buf : List Nat) (n s : Nat) :
    cells buf s n = (List.range n).map (fun j => byteAt buf (s + j)) := by
  induction n generalizing s with
  | zero => rfl
  | succ n ih =>
    rw [List.range_succ_eq_map, List.map_cons, List.map_map]
    simp only [cells, ih, Nat.add_zero]
    congr 1
    apply List.map_congr_left
    intro j _
    simp only [Function.comp, Nat.succ_eq_add_one]
    congr 1
    omega

theorem cells_length (buf : List Nat) (n s : Nat) : (cells buf s n).length = n := by
  rw [cells_eq_map]
  simp

theorem cells_congr (buf buf2 : List Nat) (n s : Nat)
    (h : ∀ j, j < n → byteAt buf2 (s + j) = byteAt buf (s + j)) :
    cells buf2 s n = cells buf s n := by
  rw [cells_eq_map, cells_eq_map]
  apply List.map_congr_left
  intro j hj
  exact h j (List.mem_range.mp hj)

/-- Every entry the loop prints is what one iteration reads at its cursor, and
that cursor is below `numread`. -/
theorem emitted_readEntry (buf : List Nat) (numread : Nat) (x : Emitted)
    (hx : x ∈ (decodeLoop buf numread).emitted) :
    readEntry buf x.cursor = .ok x.entry ∧ x.cursor < numread ∧
      (lookupFiletype x.entry.file_type).isSome = true := by
  obtain ⟨k, hk, hall⟩ := loop_emitted_records buf numread numread 0
  unfold decodeLoop at hx
  rw [hk] at hx
  obtain ⟨j, hj⟩ := List.mem_iff_getElem?.mp hx
  obtain ⟨hjk, hc, he⟩ := recordsFrom_getElem?_inv buf k 0 j x hj
  obtain ⟨hlt, hg, hb⟩ := hall j hjk
  rw [cursorFrom_succ] at hb
  have h20 := hg.1
  rw [hc, he, readEntry_eq, if_neg (by omega), if_neg (by omega), if_neg (by omega)]
  exact ⟨rfl, hlt, hg.2⟩

/-- An entry read at `c` does not depend on the cell `c + record_length - 2`. -/
theorem readEntry_padding_irrelevant (buf buf2 : List Nat) (c : Nat) (e : DirEntry)
    (h : readEntry buf c = .ok e)
    (hsame : ∀ i, i ≠ c + e.record_length - 2 → byteAt buf2 i = byteAt buf i) :
    readEntry buf2 c = .ok e := by
  obtain ⟨he, h20, hb⟩ := readEntry_ok_inv buf c e h
  have hlen : e.record_length = recLenAt buf c := by rw [he]; rfl
  rw [hlen] at hsame
  have hrl : recLenAt buf2 c = recLenAt buf c := by
    unfold recLenAt
    rw [cells_congr buf buf2 2 (c + 16) (fun j hj => hsame _ (by omega))]
  have hent : entryAt buf2 c = entryAt buf c := by
    simp only [entryAt, typeAt, hrl]
    rw [cells_congr buf buf2 8 c (fun j hj => hsame _ (by omega)),
      cells_congr buf buf2 8 (c + 8) (fun j hj => hsame _ (by omega)),
      cells_congr buf buf2 (recLenAt buf c - 20) (c + 18) (fun j hj => hsame _ (by omega)),
      hsame (c + recLenAt buf c - 1) (by omega)]
  rw [readEntry_eq, hrl, hent, if_neg (by omega), if_neg (by omega), if_neg (by omega), he]

/-! ## The offsets read by the loop -/

theorem readEntryOffsets_good (buf : List Nat) (c : Nat) (h20 : 20 ≤ recLenAt buf c)
    (hb : c + recLenAt buf c ≤ BLOCK_SIZE) :
    readEntryOffsets buf c =
      List.range' c 8 ++ (List.range' (c + 8) 8 ++ (List.range' (c + 16) 2 ++
        (List.range' (c + 18) (recLenAt buf c - 20) ++ [c + recLenAt buf c - 1]))) := by
  have hrl := recLenAt_lt buf c
  have hnl := nameLength_eq _ hrl
  have e16 : D_ULONG_SIZE + c = c + 16 := by unfold D_ULONG_SIZE ULONG_SIZE; omega
  have e8 : ULONG_SIZE + c = c + 8 := by unfold ULONG_SIZE; omega
  have e18 : ADD_DULONG_USHORT + c = c + 18 := by
    unfold ADD_DULONG_USHORT D_ULONG_SIZE ULONG_SIZE USHORT_SIZE; omega
  have u8 : ULONG_SIZE = 8 := rfl
  have u2 : USHORT_SIZE = 2 := rfl
  have c8 : 8 + c = c + 8 := Nat.add_comm 8 c
  have hrec : leValue (cells buf (c + 16) 2) = recLenAt buf c := rfl
  have hn : ¬ ((recLenAt buf c : Int) - 20 < 0) := by omega
  have htn : ((recLenAt buf c : Int) - 20).toNat = recLenAt buf c - 20 := by omega
  unfold readEntryOffsets
  rw [e16, e8, e18, u8, u2]
  simp only [readUnsigned]
  rw [readBytes_some buf 8 c (by omega), readBytes_some buf 8 (c + 8) (by omega),
    readBytes_some buf 2 (c + 16) (by omega)]
  simp only [Option.map_some']
  rw [hrec, hnl, if_neg hn, htn, readBytes_some buf (recLenAt buf c - 20) (c + 18) (by omega)]

theorem readEntryOffsets_good_mem (buf : List Nat) (c o : Nat) (h20 : 20 ≤ recLenAt buf c)
    (hb : c + recLenAt buf c ≤ BLOCK_SIZE) :
    o ∈ readEntryOffsets buf c ↔
      c ≤ o ∧ o < c + recLenAt buf c ∧ o ≠ c + recLenAt buf c - 2 := by
  rw [readEntryOffsets_good buf c h20 hb]
  simp only [List.mem_append, List.mem_range'_1, List.mem_singleton]
  omega

theorem loopOffsets_done (buf : List Nat) (numread f c : Nat) (h : ¬ c < numread) :
    loopOffsets buf numread f c = [] := by
  unfold loopOffsets
  rw [if_neg h]

theorem loopOffsets_zero (buf : List Nat) (numread c : Nat) :
    loopOffsets buf numread 0 c = [] := by
  unfold loopOffsets
  split <;> rfl

theorem loopOffsets_good (buf : List Nat) (numread f c : Nat) (hc : c < numread)
    (hg : GoodRecord buf c) (hb : c + recLenAt buf c ≤ BLOCK_SIZE) :
    loopOffsets buf numread (f + 1) c =
      readEntryOffsets buf c ++ loopOffsets buf numread f (c + recLenAt buf c) := by
  have h20 := hg.1
  have hre : readEntry buf c = .ok (entryAt buf c) := by
    rw [readEntry_eq, if_neg (by omega), if_neg (by omega), if_neg (by omega)]
  have hty : (entryAt buf c).file_type = typeAt buf c := rfl
  have hlen : (entryAt buf c).record_length = recLenAt buf c := rfl
  obtain ⟨l, hl⟩ := Option.isSome_iff_exists.mp hg.2
  rw [loopOffsets, if_pos hc, hre]
  simp only [hty, hl, hlen]

/-- Over a chain of good records that ends at `numread`, inside the block,
every offset the loop reads is below `numread`. -/
theorem loopOffsets_lt (buf : List Nat) (numread : Nat) (hcap : numread ≤ BLOCK_SIZE) :
    ∀ (f k c : Nat), (∀ j, j < k → GoodRecord buf (cursorFrom buf c j)) →
      cursorFrom buf c k = numread → ∀ o ∈ loopOffsets buf numread f c, o < numread := by
  intro f
  induction f with
  | zero =>
    intro k c _ _ o ho
    rw [loopOffsets_zero] at ho
    cases ho
  | succ f ih =>
    intro k c hgood hend o ho
    by_cases hc : c < numread
    · cases k with
      | zero =>
        have : c = numread := hend
        omega
      | succ k =>
        have hg : GoodRecord buf c := hgood 0 (by omega)
        have h20 := hg.1
        have hmono := cursorFrom_mono buf c 1 (k + 1) (by omega)
        have h1 : cursorFrom buf c 1 = c + recLenAt buf c := rfl
        rw [hend, h1] at hmono
        rw [loopOffsets_good buf numread f c hc hg (by omega), List.mem_append] at ho
        rcases ho with ho | ho
        · have := (readEntryOffsets_good_mem buf c o h20 (by omega)).mp ho
          omega
        · exact ih k (c + recLenAt buf c) (fun j hj => hgood (j + 1) (by omega)) hend o ho
    · rw [loopOffsets_done buf numread _ c hc] at ho
      cases ho

/-- Over `k` good records inside the block, each reached below `numread`, the
offsets read are those of the records, one record after the other, followed
by those of the rest of the run. -/
theorem loopOffsets_records (buf : List Nat) (numread : Nat) :
    ∀ (k f c : Nat),
      (∀ j, j < k → cursorFrom buf c j < numread ∧ GoodRecord buf (cursorFrom buf c j) ∧
        cursorFrom buf c (j + 1) ≤ BLOCK_SIZE) →
      loopOffsets buf numread (f + k) c =
        (recordsFrom buf c k).flatMap (fun x => readEntryOffsets buf x.cursor)
          ++ loopOffsets buf numread f (cursorFrom buf c k) := by
  intro k
  induction k with
  | zero => intro f c _; rfl
  | succ k ih =>
    intro f c h
    obtain ⟨h0, hg, hb⟩ := h 0 (by omega)
    have hfuel : f + (k + 1) = (f + k) + 1 := by omega
    rw [hfuel, loopOffsets_good buf numread (f + k) c h0 hg hb,
      ih f (c + recLenAt buf c) (fun j hj => h (j + 1) (by omega))]
    simp only [recordsFrom, cursorFrom, List.flatMap_cons, List.append_assoc]

/-- On a well-formed block the offsets read by the loop are those read for
the entries it prints, in order. -/
theorem loopOffsets_of_wellFormed (buf : List Nat) (numread n : Nat)
    (h : WellFormed buf numread n) :
    loopOffsets buf numread numread 0 =
      (recordsFrom buf 0 n).flatMap (fun x => readEntryOffsets buf x.cursor) := by
  have hge := cursorFrom_ge buf n h.2.1
  rw [h.2.2] at hge
  obtain ⟨f, hf⟩ : ∃ f, numread = f + n := ⟨numread - n, by omega⟩
  have hrec := loopOffsets_records buf numread n f 0 (wellFormed_records buf numread n h)
  rw [← hf, h.2.2, loopOffsets_done buf numread f numread (by omega), List.append_nil] at hrec
  exact hrec

/-! ## The name buffer and its printing -/

/-- When the name buffer holds a NUL, `%s` prints the bytes before the first
one: an initial part of the buffer. -/
theorem printfString_terminated (bytes : List Nat) (h : 0 ∈ bytes) :
    printfString bytes = some (visibleName bytes) ∧
      visibleName bytes <+: bytes ∧ (visibleName bytes).length < bytes.length := by
  refine ⟨by simp [printfString, visibleName, h], List.takeWhile_prefix _, ?_⟩
  unfold visibleName
  induction bytes with
  | nil => cases h
  | cons b bs ih =>
    by_cases hb : b = 0
    · subst hb
      simp [List.takeWhile]
    · have hmem : 0 ∈ bs := by
        rcases List.mem_cons.mp h with h0 | h0
        · exact absurd h0.symm hb
        · exact h0
      have := ih hmem
      have hb2 : (b != 0) = true := by simpa using hb
      rw [List.takeWhile_cons, hb2]
      simp only [if_true, List.length_cons]
      omega

theorem printfString_unterminated (bytes : List Nat) (h : 0 ∉ bytes) :
    printfString bytes = none := by
  simp [printfString, h]

theorem kernelRecLen_aligned (n : Nat) (h : (n + 20) % 8 = 0) : kernelRecLen n = n + 20 := by
  unfold kernelRecLen
  omega

theorem specKernelRecord_aligned (t : SpecTuple) (h : (t.name.length + 20) % 8 = 0) :
    specKernelRecord t = specPackRecord t := by
  unfold specKernelRecord specPackRecord
  rw [kernelRecLen_aligned _ h]
  have : t.name.length + 20 - t.name.length - 19 = 1 := by omega
  rw [this]
  rfl

theorem readEntry_specPackRecord (pre rest : List Nat) (t : SpecTuple) (hv : t.Valid)
    (hb : pre.length + (t.name.length + 20) ≤ BLOCK_SIZE) :
    readEntry (pre ++ (specPackRecord t ++ rest)) pre.length = .ok t.toEntry := by
  have hB : BLOCK_SIZE = 4096 := rfl
  have hlen : t.name.length + 20 < 65536 := by omega
  have hrl := recLenAt_specPackRecord pre rest t hlen
  rw [readEntry_eq, hrl, entryAt_specPackRecord pre rest t hv hlen, if_neg (by omega),
    if_neg (by omega), if_neg (by omega)]

/-! ## Packed blocks: what is decoded and what is printed -/

/-- The entries decoded from a packed block: for valid tuples whose packed
records fit the block, the loop ends normally and the `DirEntry` of each
iteration holds the fields of its tuple, in order. -/
theorem decodeLoop_specPack_entries (ts : List SpecTuple)
    (hvalid : ∀ t ∈ ts, t.Valid) (hsize : (specPack ts).length ≤ BLOCK_SIZE) :
    (decodeLoop (specPack ts) (specPack ts).length).exit = .success ∧
    (decodeLoop (specPack ts) (specPack ts).length).emitted.map (fun e => e.entry)
      = ts.map SpecTuple.toEntry := by
  have h := loop_specPack (specPack ts).length ts [] hvalid (by simpa using hsize) (by simp)
  simp only [List.nil_append, List.length_nil] at h
  have hd : decodeLoop (specPack ts) (specPack ts).length
      = { emitted := specEmitted 0 ts, exit := .success } := h
  rw [hd]
  exact ⟨rfl, specEmitted_entries ts 0⟩

theorem printEntry_unterminated (args : Args) (dir_ent : DirEntry) (filetype : String)
    (hmode : args.normal ≠ 0 ∨ args.more_info ≠ 0) (h : 0 ∉ dir_ent.file_name) :
    printEntry args dir_ent filetype = none := by
  unfold printEntry
  rw [printfString_unterminated _ h]
  by_cases hn : args.normal ≠ 0
  · rw [if_pos hn]; rfl
  · rw [if_neg hn, if_pos (hmode.resolve_left hn)]; rfl

/-- Every entry decoded from a packed block of valid tuples has a name buffer
without a NUL: its `%s` print is undefined, in the normal and in the
`more_info` mode. -/
theorem specPack_printed_undefined (ts : List SpecTuple)
    (hvalid : ∀ t ∈ ts, t.Valid) (hsize : (specPack ts).length ≤ BLOCK_SIZE)
    (x : Emitted) (hx : x ∈ (decodeLoop (specPack ts) (specPack ts).length).emitted) :
    printfString x.entry.file_name = none ∧
    ∀ args : Args, args.normal ≠ 0 ∨ args.more_info ≠ 0 → printedLine args x = none := by
  have hent := (decodeLoop_specPack_entries ts hvalid hsize).2
  have hmem : x.entry ∈ ts.map SpecTuple.toEntry := by
    rw [← hent]
    exact List.mem_map_of_mem _ hx
  obtain ⟨t, ht, hte⟩ := List.mem_map.mp hmem
  have hnul : 0 ∉ x.entry.file_name := by
    rw [← hte]
    intro h0
    exact ((hvalid t ht).2.2 0 h0).2 rfl
  refine ⟨printfString_unterminated _ hnul, ?_⟩
  intro args hmode
  unfold printedLine
  cases lookupFiletype x.entry.file_type with
  | none => rfl
  | some filetype => exact printEntry_unterminated args x.entry filetype hmode hnul

/-! ## The claims -/

/-- C1 fails on the code at the one-tuple list `(12, RegularFile, "test")`,
whose packed block is the 24-byte record the kernel gives for such a file. The
loop decodes the tuple's fields into `dir_ent` and finds the label `Regular`,
but the name buffer holds the 4 name bytes and no NUL, so the line printed for
the entry is undefined in the normal and in the `more_info` mode: the name is
not emitted as packed. The block of the concrete scenario, `.` then `a.txt`,
behaves the same for both of its entries. A record of the same file type
whose slice holds a NUL after the name `ab` is printed in full. -/
theorem roundtrip_printed_name_undefined :
    exampleTestTuple.Valid ∧ specPack [exampleTestTuple] = exampleTestBlock ∧
    (decodeLoop (specPack [exampleTestTuple]) (specPack [exampleTestTuple]).length).exit
      = .success ∧
    (decodeLoop (specPack [exampleTestTuple]) (specPack [exampleTestTuple]).length).emitted
      = [{ cursor := 0, entry := { inode_num := 12, offset := 24, record_length := 24,
                                   file_name := [116, 101, 115, 116], file_type := 8 } }] ∧
    lookupFiletype 8 = some "Regular" ∧
    (decodeLoop (specPack [exampleTestTuple]) (specPack [exampleTestTuple]).length).emitted.map
        (printedLine { more_info := 0, normal := 1, help := 0 }) = [none] ∧
    (decodeLoop (specPack [exampleTestTuple]) (specPack [exampleTestTuple]).length).emitted.map
        (printedLine { more_info := 1, normal := 0, help := 0 }) = [none] ∧
    (decodeLoop (specPack exampleTuples) (specPack exampleTuples).length).emitted.map
        (printedLine { more_info := 1, normal := 0, help := 0 }) = [none, none] ∧
    (decodeLoop examplePaddedBlock 24).emitted.map
        (printedLine { more_info := 1, normal := 0, help := 0 })
      = [some (Printed.info 13 24 24 "Regular" [97, 98])] := by
  decide

/-- C2: on every well-formed block (`numread ≤ 4096`; from cursor 0 the `n`
records have a record length of at least 20 and a recognised type byte, and
their chain ends at `numread` exactly) the decode loop ends normally, prints
the `n` records, the first at cursor 0 and each next one at the cursor of the
one before plus its record length, and the record lengths printed add up to
`numread`. -/
theorem decodeLoop_wellFormed_cursors (buf : List Nat) (numread n : Nat)
    (h : WellFormed buf numread n) :
    (decodeLoop buf numread).exit = .success ∧
    (decodeLoop buf numread).emitted.length = n ∧
    (∀ a, (decodeLoop buf numread).emitted[0]? = some a → a.cursor = 0) ∧
    (∀ i a b, (decodeLoop buf numread).emitted[i]? = some a →
      (decodeLoop buf numread).emitted[i + 1]? = some b →
      b.cursor = a.cursor + a.entry.record_length) ∧
    ((decodeLoop buf numread).emitted.map (fun e => e.entry.record_length)).sum = numread := by
  rw [decodeLoop_of_wellFormed buf numread n h]
  refine ⟨rfl, recordsFrom_length buf n 0, ?_, ?_, ?_⟩
  · intro a ha
    exact (recordsFrom_getElem?_inv buf n 0 0 a ha).2.1
  · intro i a b ha hb
    obtain ⟨_, hac, hae⟩ := recordsFrom_getElem?_inv buf n 0 i a ha
    obtain ⟨_, hbc, _⟩ := recordsFrom_getElem?_inv buf n 0 (i + 1) b hb
    rw [hbc, hac, hae, cursorFrom_succ]
    rfl
  · have hs := recordsFrom_sum buf n 0
    rw [h.2.2] at hs
    simpa using hs

/-- C2 on the example block: two records, 21 + 25 = 46 bytes. -/
theorem decodeLoop_wellFormed_cursors_witness :
    WellFormed exampleBlock 46 2 ∧
    (decodeLoop exampleBlock 46).exit = .success ∧
    ((decodeLoop exampleBlock 46).emitted.map (fun e => e.entry.record_length)).sum = 46 :=
  ⟨by decide, (decodeLoop_wellFormed_cursors exampleBlock 46 2 (by decide)).1,
    (decodeLoop_wellFormed_cursors exampleBlock 46 2 (by decide)).2.2.2.2⟩

/-- C3: when the first `k` records of the chain are good and the record at
position `k`, reached below `numread`, of at least 20 bytes and inside the
block, has a type byte that `lookupFiletype` does not recognise, the loop
leaves through `fatal` for the unknown file type, having printed exactly the
`k` records before it: the offending record and all that follow are not
printed. -/
theorem decodeLoop_unknown_filetype (buf : List Nat) (numread k : Nat)
    (hgood : ∀ j, j < k → GoodRecord buf (cursorFrom buf 0 j))
    (hreach : cursorFrom buf 0 k < numread)
    (hlen : 20 ≤ recLenAt buf (cursorFrom buf 0 k))
    (hblock : cursorFrom buf 0 k + recLenAt buf (cursorFrom buf 0 k) ≤ BLOCK_SIZE)
    (hbad : lookupFiletype (typeAt buf (cursorFrom buf 0 k)) = none) :
    decodeLoop buf numread =
      { emitted := recordsFrom buf 0 k, exit := .fatalUnknownFiletype } ∧
    (decodeLoop buf numread).emitted.length = k := by
  have hd : decodeLoop buf numread =
      { emitted := recordsFrom buf 0 k, exit := .fatalUnknownFiletype } := by
    unfold decodeLoop
    rw [loop_records buf numread numread k 0 (by omega)
      (reached_records buf numread k hgood hreach (by omega))]
    rw [loop_unknown buf numread numread _ hreach hlen hblock hbad (by omega)]
    simp
  rw [hd]
  exact ⟨rfl, recordsFrom_length buf k 0⟩

/-- C3 on the example block whose second record carries the type byte `0xFF`:
only the first record is printed, the third is never reached. -/
theorem decodeLoop_unknown_filetype_witness :
    typeAt exampleBadTypeBlock (cursorFrom exampleBadTypeBlock 0 1) = toChar 255 ∧
    decodeLoop exampleBadTypeBlock 67 =
      { emitted := [{ cursor := 0, entry := { inode_num := 2, offset := 1, record_length := 21,
                                              file_name := [46], file_type := 4 } }],
        exit := .fatalUnknownFiletype } :=
  ⟨by decide,
    (decodeLoop_unknown_filetype exampleBadTypeBlock 67 1 (by decide) (by decide) (by decide)
      (by decide) (by decide)).1⟩

/-- C4, as stated, fails: in the example block with `numread = 30` the record
at cursor 21 has 25 bytes, so `21 + 25 > 30`, yet the loop prints it and ends
normally; no truncation is reported. -/
theorem truncated_record_counterexample :
    cursorFrom exampleBlock 0 1 = 21 ∧ recLenAt exampleBlock 21 = 25 ∧ 21 < 30 ∧
    30 < 21 + 25 ∧
    decodeLoop exampleBlock 30 =
      { emitted := [{ cursor := 0, entry := { inode_num := 2, offset := 1, record_length := 21,
                                              file_name := [46], file_type := 4 } },
                    { cursor := 21, entry := { inode_num := 5, offset := 2, record_length := 25,
                                               file_name := [97, 46, 116, 120, 116],
                                               file_type := 8 } }],
        exit := .success } := by
  decide

/-- C4 as amended: the loop has no truncation check. When the records at
positions `0 .. k` are good, the one at position `k` is reached below
`numread` and ends past `numread` but inside the 4096-byte block, the loop
prints it like the others, from the bytes past `numread`, and ends normally. -/
theorem decodeLoop_record_past_numread (buf : List Nat) (numread k : Nat)
    (hgood : ∀ j, j < k + 1 → GoodRecord buf (cursorFrom buf 0 j))
    (hreach : cursorFrom buf 0 k < numread)
    (hpast : numread < cursorFrom buf 0 k + recLenAt buf (cursorFrom buf 0 k))
    (hblock : cursorFrom buf 0 k + recLenAt buf (cursorFrom buf 0 k) ≤ BLOCK_SIZE) :
    decodeLoop buf numread = { emitted := recordsFrom buf 0 (k + 1), exit := .success } := by
  have hs := cursorFrom_succ buf k 0
  unfold decodeLoop
  rw [loop_records buf numread numread (k + 1) 0 (by omega)]
  · rw [loop_done buf numread numread _ (by omega)]
    simp
  · intro j hj
    have h1 := cursorFrom_mono buf 0 j k (by omega)
    have h2 := cursorFrom_mono buf 0 (j + 1) (k + 1) (by omega)
    exact ⟨by omega, hgood j hj, by omega⟩

/-- C4 as amended, on the example block cut at 30 bytes. -/
theorem decodeLoop_record_past_numread_witness :
    (decodeLoop exampleBlock 30).emitted.length = 2 ∧
    (decodeLoop exampleBlock 30).exit = .success :=
  ⟨by rw [decodeLoop_record_past_numread exampleBlock 30 1 (by decide) (by decide) (by decide)
      (by decide)]; rfl,
   by rw [decodeLoop_record_past_numread exampleBlock 30 1 (by decide) (by decide) (by decide)
      (by decide)]⟩

/-- C5, as stated, fails: in the example block with `numread = 60` the cursor
reaches 46, where the (zeroed) header declares a record length of 0; the run
ends in the copy of `-20` name bytes, which is undefined, and not in a
reported error. -/
theorem zero_length_record_counterexample :
    cursorFrom exampleBlock 0 2 = 46 ∧ 46 < 60 ∧ recLenAt exampleBlock 46 = 0 ∧
    nameLength (recLenAt exampleBlock 46) = -20 ∧
    (decodeLoop exampleBlock 60).exit = .negativeNameLength ∧
    (decodeLoop exampleBlock 60).exit ≠ .fatalUnknownFiletype := by
  decide

/-- C5 as amended: the loop has no zero-length check. When the cursor reaches,
after `k` good records, a header inside the block that declares a record
length of 0, `name_length` is `-20` and the run ends in the undefined copy of
a negative number of bytes, having printed the `k` records before.  And in
every block, an iteration that gets to `index += record_length` adds at least
20: no iteration leaves the cursor unchanged. -/
theorem decodeLoop_zero_length (buf : List Nat) (numread k : Nat)
    (hgood : ∀ j, j < k → GoodRecord buf (cursorFrom buf 0 j))
    (hreach : cursorFrom buf 0 k < numread)
    (hhdr : cursorFrom buf 0 k + 18 ≤ BLOCK_SIZE)
    (hzero : recLenAt buf (cursorFrom buf 0 k) = 0) :
    nameLength (recLenAt buf (cursorFrom buf 0 k)) = -20 ∧
    decodeLoop buf numread = { emitted := recordsFrom buf 0 k, exit := .negativeNameLength } ∧
    (∀ (b : List Nat) (c : Nat) (e : DirEntry), readEntry b c = .ok e →
      c < c + e.record_length) := by
  refine ⟨by rw [hzero]; decide, ?_, ?_⟩
  · unfold decodeLoop
    rw [loop_records buf numread numread k 0 (by omega)
      (reached_records buf numread k hgood hreach (by omega))]
    rw [loop_short buf numread numread _ hreach hhdr (by omega) (by omega)]
    simp
  · intro b c e he
    obtain ⟨hent, h20, _⟩ := readEntry_ok_inv b c e he
    have hl : e.record_length = recLenAt b c := by rw [hent]; rfl
    omega

/-- C5 as amended, on the example block read with `numread = 60`. -/
theorem decodeLoop_zero_length_witness :
    (decodeLoop exampleBlock 60).emitted.length = 2 ∧
    (decodeLoop exampleBlock 60).exit = .negativeNameLength :=
  ⟨by rw [(decodeLoop_zero_length exampleBlock 60 2 (by decide) (by decide) (by decide)
      (by decide)).2.1]; rfl,
   by rw [(decodeLoop_zero_length exampleBlock 60 2 (by decide) (by decide) (by decide)
      (by decide)).2.1]⟩

/-- C6, as stated, fails: in `exampleShortBlock` the header at cursor 21
declares a record length of 19, so `name_length` is `-1`; the run ends in the
undefined copy of a negative number of bytes, and not in a reported error. -/
theorem short_record_counterexample :
    cursorFrom exampleShortBlock 0 1 = 21 ∧ 21 < 40 ∧ recLenAt exampleShortBlock 21 = 19 ∧
    nameLength (recLenAt exampleShortBlock 21) = -1 ∧
    (decodeLoop exampleShortBlock 40).exit = .negativeNameLength ∧
    (decodeLoop exampleShortBlock 40).exit ≠ .fatalUnknownFiletype := by
  decide

/-- C6 as amended: the loop has no check of the record length. When the
cursor reaches, after `k` good records, a header inside the block that
declares a record length below 20, `name_length` is negative and the run ends
in the undefined copy of a negative number of bytes; the `k` records before
are printed and none is printed for that record. -/
theorem decodeLoop_short_record (buf : List Nat) (numread k : Nat)
    (hgood : ∀ j, j < k → GoodRecord buf (cursorFrom buf 0 j))
    (hreach : cursorFrom buf 0 k < numread)
    (hhdr : cursorFrom buf 0 k + 18 ≤ BLOCK_SIZE)
    (hshort : recLenAt buf (cursorFrom buf 0 k) < 20) :
    nameLength (recLenAt buf (cursorFrom buf 0 k)) < 0 ∧
    readEntry buf (cursorFrom buf 0 k) = .error .negativeNameLength ∧
    decodeLoop buf numread = { emitted := recordsFrom buf 0 k, exit := .negativeNameLength } := by
  refine ⟨?_, ?_, ?_⟩
  · rw [nameLength_eq _ (recLenAt_lt _ _)]
    omega
  · rw [readEntry_eq, if_neg (by omega), if_pos hshort]
  · unfold decodeLoop
    rw [loop_records buf numread numread k 0 (by omega)
      (reached_records buf numread k hgood hreach (by omega))]
    rw [loop_short buf numread numread _ hreach hhdr hshort (by omega)]
    simp

/-- C6 as amended, on `exampleShortBlock`. -/
theorem decodeLoop_short_record_witness :
    (decodeLoop exampleShortBlock 40).emitted.length = 1 ∧
    (decodeLoop exampleShortBlock 40).exit = .negativeNameLength :=
  ⟨by rw [(decodeLoop_short_record exampleShortBlock 40 1 (by decide) (by decide) (by decide)
      (by decide)).2.2]; rfl,
   by rw [(decodeLoop_short_record exampleShortBlock 40 1 (by decide) (by decide) (by decide)
      (by decide)).2.2]⟩

/-- C8: `lookupFiletype` gives a label for the eight codes 0, 1, 2, 4, 6, 8,
10, 12 (the codes of the closed enumeration) and `NULL` for every other value
of the `char`, among them 14 and every byte of 128 and more; two codes with
the same label are equal. -/
theorem lookupFiletype_table :
    lookupFiletype 0 = some "Unknown" ∧ lookupFiletype 1 = some "Buffer" ∧
    lookupFiletype 2 = some "Character Device" ∧ lookupFiletype 4 = some "Directory" ∧
    lookupFiletype 6 = some "Block Device" ∧ lookupFiletype 8 = some "Regular" ∧
    lookupFiletype 10 = some "Symbolic Link" ∧ lookupFiletype 12 = some "Socket" ∧
    (∀ ft : SpecFileType, (lookupFiletype (toChar ft.code)).isSome = true) ∧
    (∀ c : Int, (lookupFiletype c).isSome = true ↔
      c = 0 ∨ c = 1 ∨ c = 2 ∨ c = 4 ∨ c = 6 ∨ c = 8 ∨ c = 10 ∨ c = 12) ∧
    (∀ b : Nat, (lookupFiletype (toChar b)).isSome = true ↔
      (∃ ft : SpecFileType, b % 256 = ft.code)) ∧
    lookupFiletype (toChar 14) = none ∧
    (∀ b : Nat, 128 ≤ b % 256 → lookupFiletype (toChar b) = none) ∧
    (∀ (c d : Int) (l : String), lookupFiletype c = some l → lookupFiletype d = some l →
      c = d) := by
  have hiff : ∀ c : Int, (lookupFiletype c).isSome = true ↔
      c = 0 ∨ c = 1 ∨ c = 2 ∨ c = 4 ∨ c = 6 ∨ c = 8 ∨ c = 10 ∨ c = 12 := by
    intro c
    simp only [lookupFiletype, DT_UNKNOWN, DT_REG, DT_DIR, DT_CHR, DT_BLK, DT_FIFO, DT_SOCK,
      DT_LNK]
    constructor
    · intro hc
      split_ifs at hc <;> first | omega | cases hc
    · intro hc
      rcases hc with h | h | h | h | h | h | h | h <;> subst h <;> rfl
  refine ⟨rfl, rfl, rfl, rfl, rfl, rfl, rfl, rfl, lookupFiletype_code, hiff, ?_, by decide, ?_, ?_⟩
  · intro b
    rw [hiff]
    have hb : b % 256 < 256 := Nat.mod_lt _ (by decide)
    unfold toChar
    constructor
    · intro hc
      split_ifs at hc with hlt
      · rcases hc with h | h | h | h | h | h | h | h
        · exact ⟨.Unknown, by simp only [SpecFileType.code]; omega⟩
        · exact ⟨.FIFO, by simp only [SpecFileType.code]; omega⟩
        · exact ⟨.CharacterDevice, by simp only [SpecFileType.code]; omega⟩
        · exact ⟨.Directory, by simp only [SpecFileType.code]; omega⟩
        · exact ⟨.BlockDevice, by simp only [SpecFileType.code]; omega⟩
        · exact ⟨.RegularFile, by simp only [SpecFileType.code]; omega⟩
        · exact ⟨.SymbolicLink, by simp only [SpecFileType.code]; omega⟩
        · exact ⟨.Socket, by simp only [SpecFileType.code]; omega⟩
      · omega
    · rintro ⟨ft, hft⟩
      cases ft <;> simp only [SpecFileType.code] at hft <;> rw [hft] <;> decide
  · intro b hb
    have hnot : ¬ ((lookupFiletype (toChar b)).isSome = true) := by
      rw [hiff]
      unfold toChar
      have hb2 : b % 256 < 256 := Nat.mod_lt _ (by decide)
      rw [if_neg (by omega)]
      omega
    cases hl : lookupFiletype (toChar b) with
    | none => rfl
    | some l => rw [hl] at hnot; exact absurd rfl hnot
  · have key : ∀ (c : Int) (l : String), lookupFiletype c = some l →
        (if l = "Unknown" then (0 : Int) else if l = "Buffer" then 1
          else if l = "Character Device" then 2 else if l = "Directory" then 4
          else if l = "Block Device" then 6 else if l = "Regular" then 8
          else if l = "Symbolic Link" then 10 else 12) = c := by
      intro c l h
      have hc := (hiff c).mp (by rw [h]; rfl)
      rcases hc with h0 | h0 | h0 | h0 | h0 | h0 | h0 | h0 <;> subst h0 <;>
        (have h2 : some _ = some l := h
         injection h2 with h2
         subst h2
         decide)
    intro c d l hc hd
    rw [← key c l hc, ← key d l hd]

/-- C9: when the record at cursor 0 declares a record length of 20 and has a
recognised type byte, `name_length` is 0, the reads of the iteration succeed
with an empty name, and the loop (entered, as `0 < numread`) prints that entry
first: no error comes from the empty name. -/
theorem decodeLoop_empty_name (buf : List Nat) (numread : Nat) (hnum : 0 < numread)
    (hrl : recLenAt buf 0 = 20)
    (hty : (lookupFiletype (typeAt buf 0)).isSome = true) :
    nameLength (recLenAt buf 0) = 0 ∧
    readEntry buf 0 = .ok (entryAt buf 0) ∧
    (entryAt buf 0).file_name = [] ∧
    visibleName (entryAt buf 0).file_name = [] ∧
    (decodeLoop buf numread).emitted[0]? = some { cursor := 0, entry := entryAt buf 0 } := by
  have hB : BLOCK_SIZE = 4096 := rfl
  have hname : (entryAt buf 0).file_name = [] := by
    simp only [entryAt, hrl]
    rfl
  refine ⟨by rw [hrl]; decide, ?_, hname, by rw [hname]; rfl, ?_⟩
  · rw [readEntry_eq, if_neg (by omega), if_neg (by omega), if_neg (by omega)]
  · unfold decodeLoop
    rw [loop_good buf numread numread 0 hnum ⟨by omega, hty⟩ (by omega) (by omega)]
    simp [Outcome.emit]

/-- C9 on the block holding one record with an empty name. -/
theorem decodeLoop_empty_name_witness :
    recLenAt exampleEmptyNameBlock 0 = 20 ∧
    (decodeLoop exampleEmptyNameBlock 20).emitted[0]? =
      some { cursor := 0, entry := { inode_num := 9, offset := 1, record_length := 20,
                                     file_name := [], file_type := 8 } } :=
  ⟨by decide,
    (decodeLoop_empty_name exampleEmptyNameBlock 20 (by decide) (by decide) (by decide)).2.2.2.2⟩

/-- C10: when the block holds one good record at cursor 0 whose record length
is `numread` (at most 4096), the loop prints exactly that entry and ends
normally, in exactly one iteration: one unit of fuel gives the whole run and
none does not. -/
theorem decodeLoop_single_record (buf : List Nat) (numread : Nat)
    (hcap : numread ≤ BLOCK_SIZE) (hgood : GoodRecord buf 0)
    (hlen : recLenAt buf 0 = numread) :
    decodeLoop buf numread =
      { emitted := [{ cursor := 0, entry := entryAt buf 0 }], exit := .success } ∧
    loop buf numread 1 0 = decodeLoop buf numread ∧
    (loop buf numread 0 0).exit = .outOfFuel := by
  have h20 := hgood.1
  have hwf : WellFormed buf numread 1 := by
    refine ⟨hcap, ?_, ?_⟩
    · intro k hk
      have : k = 0 := by omega
      subst this
      exact hgood
    · show 0 + recLenAt buf 0 = numread
      omega
  have hd := decodeLoop_of_wellFormed buf numread 1 hwf
  refine ⟨hd, ?_, ?_⟩
  · rw [hd, loop_succ buf numread 0 0 (by omega)]
    have hre : readEntry buf 0 = .ok (entryAt buf 0) := by
      rw [readEntry_eq, if_neg (by omega), if_neg (by omega), if_neg (by omega)]
    have hty : (entryAt buf 0).file_type = typeAt buf 0 := rfl
    have hl : (entryAt buf 0).record_length = recLenAt buf 0 := rfl
    obtain ⟨l, hl2⟩ := Option.isSome_iff_exists.mp hgood.2
    rw [hre]
    simp only [hty, hl2, hl]
    rw [loop_done buf numread 0 _ (by omega)]
    rfl
  · unfold loop
    rw [if_pos (by omega)]

/-- C10 on the block holding one record of 20 bytes, with `numread = 20`. -/
theorem decodeLoop_single_record_witness :
    (decodeLoop exampleEmptyNameBlock 20).emitted.length = 1 ∧
    (decodeLoop exampleEmptyNameBlock 20).exit = .success :=
  ⟨by rw [(decodeLoop_single_record exampleEmptyNameBlock 20 (by decide) (by decide)
      (by decide)).1]; rfl,
   by rw [(decodeLoop_single_record exampleEmptyNameBlock 20 (by decide) (by decide)
      (by decide)).1]⟩

/-- C11: `parseArgs` classifies the command line as the help text says. With
no argument it selects normal mode, with the single argument `-l` the
`more_info` mode, with the single argument `-h` the help mode; every other
single argument and every other argument count give `NULL`, which `main`
turns into the failing exit. In every result other than `NULL` exactly one of
the three flags is 1 and the other two are 0. -/
theorem parseArgs_classifies :
    (∀ prog : String, parseArgs [prog] = some { more_info := 0, normal := 1, help := 0 }) ∧
    (∀ prog : String,
      parseArgs [prog, "-l"] = some { more_info := 1, normal := 0, help := 0 }) ∧
    (∀ prog : String,
      parseArgs [prog, "-h"] = some { more_info := 0, normal := 0, help := 1 }) ∧
    (∀ prog a : String, a ≠ "-l" → a ≠ "-h" → parseArgs [prog, a] = none) ∧
    (∀ argv : List String, argv.length ≠ 1 → argv.length ≠ 2 → parseArgs argv = none) ∧
    (∀ argv : List String, parseArgs argv = none → mainStartup argv = .fatalParse) ∧
    (∀ (argv : List String) (args : Args), parseArgs argv = some args →
      (args.normal = 1 ∧ args.more_info = 0 ∧ args.help = 0) ∨
      (args.normal = 0 ∧ args.more_info = 1 ∧ args.help = 0) ∨
      (args.normal = 0 ∧ args.more_info = 0 ∧ args.help = 1)) := by
  refine ⟨fun _ => rfl, fun _ => rfl, fun _ => rfl, ?_, ?_, ?_, ?_⟩
  · intro prog a hl hh
    simp [parseArgs, hl, hh]
  · intro argv h1 h2
    simp [parseArgs, h1, h2]
  · intro argv h
    simp [mainStartup, h]
  · intro argv args h
    unfold parseArgs at h
    simp only [] at h
    split_ifs at h <;> (injection h with h; subst h; decide)

/-- C11 on four command lines: none, `-l`, `-h`, and an unknown option. -/
theorem parseArgs_classifies_witness :
    parseArgs ["ls"] = some { more_info := 0, normal := 1, help := 0 } ∧
    parseArgs ["ls", "-l"] = some { more_info := 1, normal := 0, help := 0 } ∧
    mainStartup ["ls", "-h"] = .helpExit ∧
    parseArgs ["ls", "-x"] = none ∧
    parseArgs ["ls", "-l", "-h"] = none :=
  ⟨parseArgs_classifies.1 "ls", parseArgs_classifies.2.1 "ls", by decide,
    parseArgs_classifies.2.2.2.1 "ls" "-x" (by decide) (by decide),
    parseArgs_classifies.2.2.2.2.1 ["ls", "-l", "-h"] (by decide) (by decide)⟩

/-- C16: for every 16-bit record length `r`, the expression of line 96,
evaluated through `int`, `unsigned long` modulo `2^64` and back to a 32-bit
`int`, is the integer `r - 20`: negative exactly when `r < 20`, and between 0
and 65515 otherwise. -/
theorem nameLength_mixed_width (r : Nat) (hr : r ≤ 65535) :
    nameLength r = (r : Int) - 20 ∧
    (nameLength r < 0 ↔ r < 20) ∧
    (20 ≤ r → 0 ≤ nameLength r ∧ nameLength r ≤ 65515) := by
  have h := nameLength_eq r (by omega)
  rw [h]
  refine ⟨rfl, by omega, fun _ => by omega⟩

/-- C16 at the two ends: `r = 0` gives `-20` and `r = 65535` gives 65515. -/
theorem nameLength_mixed_width_witness :
    nameLength 0 = -20 ∧ nameLength 65535 = 65515 :=
  ⟨(nameLength_mixed_width 0 (by decide)).1, (nameLength_mixed_width 65535 (by decide)).1⟩

/-- C12: every entry the loop prints was read at its cursor `c` from these
cells, with `r` its record length, which is at least 20: the inode number is
the little-endian value of cells `c .. c+7`, the offset that of cells
`c+8 .. c+15`, the record length that of cells `c+16` and `c+17`, the name is
the `r - 20` cells from `c+18` on, and the type is the cell `c + r - 1` as a
`char`. The cell `c + r - 2` belongs to no field: a block that differs in that
cell only gives the same entry. -/
theorem emitted_field_positions (buf : List Nat) (numread : Nat) (x : Emitted)
    (hx : x ∈ (decodeLoop buf numread).emitted) :
    20 ≤ x.entry.record_length ∧
    x.entry.inode_num =
      byteAt buf x.cursor + 256 * byteAt buf (x.cursor + 1)
        + 256 ^ 2 * byteAt buf (x.cursor + 2) + 256 ^ 3 * byteAt buf (x.cursor + 3)
        + 256 ^ 4 * byteAt buf (x.cursor + 4) + 256 ^ 5 * byteAt buf (x.cursor + 5)
        + 256 ^ 6 * byteAt buf (x.cursor + 6) + 256 ^ 7 * byteAt buf (x.cursor + 7) ∧
    x.entry.offset =
      byteAt buf (x.cursor + 8) + 256 * byteAt buf (x.cursor + 9)
        + 256 ^ 2 * byteAt buf (x.cursor + 10) + 256 ^ 3 * byteAt buf (x.cursor + 11)
        + 256 ^ 4 * byteAt buf (x.cursor + 12) + 256 ^ 5 * byteAt buf (x.cursor + 13)
        + 256 ^ 6 * byteAt buf (x.cursor + 14) + 256 ^ 7 * byteAt buf (x.cursor + 15) ∧
    x.entry.record_length = byteAt buf (x.cursor + 16) + 256 * byteAt buf (x.cursor + 17) ∧
    x.entry.file_name =
      (List.range (x.entry.record_length - 20)).map (fun j => byteAt buf (x.cursor + 18 + j)) ∧
    x.entry.file_type = toChar (byteAt buf (x.cursor + x.entry.record_length - 1)) ∧
    (∀ buf2 : List Nat,
      (∀ i, i ≠ x.cursor + x.entry.record_length - 2 → byteAt buf2 i = byteAt buf i) →
      readEntry buf2 x.cursor = .ok x.entry) := by
  obtain ⟨hre, _, _⟩ := emitted_readEntry buf numread x hx
  obtain ⟨he, h20, _⟩ := readEntry_ok_inv buf x.cursor x.entry hre
  have hlen : x.entry.record_length = recLenAt buf x.cursor := by rw [he]; rfl
  refine ⟨by omega, ?_, ?_, ?_, ?_, ?_, ?_⟩
  · rw [he]
    simp only [entryAt, cells, leValue]
    ring
  · rw [he]
    simp only [entryAt, cells, leValue]
    ring
  · rw [he]
    simp only [entryAt, recLenAt, cells, leValue]
    ring
  · rw [hlen, he]
    simp only [entryAt]
    exact cells_eq_map buf _ _
  · rw [hlen, he]
    rfl
  · intro buf2 hsame
    exact readEntry_padding_irrelevant buf buf2 x.cursor x.entry hre hsame

/-- C12 on the second record of the example block, at cursor 21 with record
length 25: the name is read from cells 39 to 43 and the type from cell 45. -/
theorem emitted_field_positions_witness :
    ({ cursor := 21, entry := { inode_num := 5, offset := 2, record_length := 25,
                                file_name := [97, 46, 116, 120, 116], file_type := 8 } }
        : Emitted) ∈ (decodeLoop exampleBlock 46).emitted ∧
    [97, 46, 116, 120, 116] = (List.range (25 - 20)).map (fun j => byteAt exampleBlock (21 + 18 + j)) ∧
    (8 : Int) = toChar (byteAt exampleBlock (21 + 25 - 1)) :=
  ⟨by decide,
   (emitted_field_positions exampleBlock 46
      { cursor := 21, entry := { inode_num := 5, offset := 2, record_length := 25,
                                 file_name := [97, 46, 116, 120, 116], file_type := 8 } }
      (by decide)).2.2.2.2.1,
   (emitted_field_positions exampleBlock 46
      { cursor := 21, entry := { inode_num := 5, offset := 2, record_length := 25,
                                 file_name := [97, 46, 116, 120, 116], file_type := 8 } }
      (by decide)).2.2.2.2.2.1⟩

/-- C13 fails on the code at the kernel-aligned record of a file named
`test` (a well-formed block of 24 bytes): the loop prints its entry, whose
name buffer holds the 4 bytes of the name slice and no NUL, so `%s` applied
to it has no defined result within the buffer, while the name slice itself,
cut at its first NUL, is the 4 bytes of the name. -/
theorem printed_name_unterminated :
    WellFormed exampleTestBlock 24 1 ∧
    decodeLoop exampleTestBlock 24 =
      { emitted := [{ cursor := 0, entry := { inode_num := 12, offset := 24,
                                              record_length := 24,
                                              file_name := [116, 101, 115, 116],
                                              file_type := 8 } }],
        exit := .success } ∧
    visibleName (cells exampleTestBlock 18 4) = [116, 101, 115, 116] ∧
    (decodeLoop exampleTestBlock 24).emitted.map (fun x => printfString x.entry.file_name)
      = [none] := by
  decide

/-- C14: the name buffer of every entry the loop prints holds exactly
`name_length = record_length - 20` bytes, the cells of the name slice one by
one, so it holds a NUL exactly when the slice does. For a record packed with
`record_length = name length + 20` and a NUL-free name, and for a
kernel-aligned record whose name length `n` has `(n + 20) mod 8 = 0`, the
iteration succeeds and the name buffer holds no NUL at all. -/
theorem name_buffer_unterminated :
    (∀ (buf : List Nat) (numread : Nat) (x : Emitted),
      x ∈ (decodeLoop buf numread).emitted →
      nameLength x.entry.record_length = (x.entry.file_name.length : Int) ∧
      x.entry.file_name.length = x.entry.record_length - 20 ∧
      (∀ j, j < x.entry.record_length - 20 →
        x.entry.file_name[j]? = some (byteAt buf (x.cursor + 18 + j))) ∧
      (0 ∈ x.entry.file_name ↔
        ∃ j, j < x.entry.record_length - 20 ∧ byteAt buf (x.cursor + 18 + j) = 0)) ∧
    (∀ (pre rest : List Nat) (t : SpecTuple), t.Valid →
      pre.length + (t.name.length + 20) ≤ BLOCK_SIZE →
      readEntry (pre ++ (specPackRecord t ++ rest)) pre.length = .ok t.toEntry ∧
      t.toEntry.file_name = t.name ∧ 0 ∉ t.toEntry.file_name) ∧
    (∀ (pre rest : List Nat) (t : SpecTuple), t.Valid →
      (t.name.length + 20) % 8 = 0 →
      pre.length + kernelRecLen t.name.length ≤ BLOCK_SIZE →
      kernelRecLen t.name.length = t.name.length + 20 ∧
      readEntry (pre ++ (specKernelRecord t ++ rest)) pre.length = .ok t.toEntry ∧
      t.toEntry.file_name = t.name ∧ 0 ∉ t.toEntry.file_name) := by
  have hnul : ∀ t : SpecTuple, t.Valid → 0 ∉ t.toEntry.file_name := by
    intro t hv h0
    exact ((hv.2.2 0 h0).2) rfl
  refine ⟨?_, ?_, ?_⟩
  · intro buf numread x hx
    obtain ⟨hre, _, _⟩ := emitted_readEntry buf numread x hx
    obtain ⟨he, h20, _⟩ := readEntry_ok_inv buf x.cursor x.entry hre
    have hlen : x.entry.record_length = recLenAt buf x.cursor := by rw [he]; rfl
    have hname : x.entry.file_name
        = (List.range (x.entry.record_length - 20)).map
            (fun j => byteAt buf (x.cursor + 18 + j)) := by
      rw [hlen, he]
      exact cells_eq_map buf _ _
    have hl : x.entry.file_name.length = x.entry.record_length - 20 := by
      rw [hname]; simp
    refine ⟨?_, hl, ?_, ?_⟩
    · rw [nameLength_eq _ (by rw [hlen]; exact recLenAt_lt _ _), hl]
      omega
    · intro j hj
      rw [hname]
      simp [hj]
    · rw [hname]
      simp only [List.mem_map, List.mem_range]
  · intro pre rest t hv hb
    exact ⟨readEntry_specPackRecord pre rest t hv hb, rfl, hnul t hv⟩
  · intro pre rest t hv hal hb
    have hk := kernelRecLen_aligned _ hal
    rw [specKernelRecord_aligned t hal]
    rw [hk] at hb
    exact ⟨hk, readEntry_specPackRecord pre rest t hv hb, rfl, hnul t hv⟩

/-- C14 on the kernel-aligned record of the file named `test`: the name
buffer is the 4 bytes of the name. -/
theorem name_buffer_unterminated_witness :
    exampleTestTuple.Valid ∧ (exampleTestTuple.name.length + 20) % 8 = 0 ∧
    readEntry ([] ++ (specKernelRecord exampleTestTuple ++ [])) ([] : List Nat).length
      = .ok exampleTestTuple.toEntry ∧
    0 ∉ exampleTestTuple.toEntry.file_name :=
  ⟨by decide, by decide,
    (name_buffer_unterminated.2.2 [] [] exampleTestTuple (by decide) (by decide)
      (by decide)).2.1,
    (name_buffer_unterminated.2.2 [] [] exampleTestTuple (by decide) (by decide)
      (by decide)).2.2.2⟩

/-- C15: on every well-formed block each offset that the loop reads from the
block (the header fields, the name slice and the type byte of each record it
prints, and nothing else) is below `numread`, hence below 4096; no read of
the model leaves the block and the loop ends normally. -/
theorem loop_reads_in_bounds (buf : List Nat) (numread n : Nat)
    (h : WellFormed buf numread n) :
    (∀ o ∈ loopOffsets buf numread numread 0, o < numread ∧ o < BLOCK_SIZE) ∧
    loopOffsets buf numread numread 0 =
      (decodeLoop buf numread).emitted.flatMap (fun x => readEntryOffsets buf x.cursor) ∧
    (∀ x ∈ (decodeLoop buf numread).emitted, ∀ o,
      o ∈ readEntryOffsets buf x.cursor ↔
        x.cursor ≤ o ∧ o < x.cursor + x.entry.record_length ∧
          o ≠ x.cursor + x.entry.record_length - 2) ∧
    (∀ x ∈ (decodeLoop buf numread).emitted, readEntry buf x.cursor = .ok x.entry) ∧
    (decodeLoop buf numread).exit = .success ∧
    (decodeLoop buf numread).exit ≠ .outOfBlock := by
  have hcap := h.1
  have hd := decodeLoop_of_wellFormed buf numread n h
  refine ⟨?_, ?_, ?_, ?_, ?_, ?_⟩
  · intro o ho
    have := loopOffsets_lt buf numread hcap numread n 0 h.2.1 h.2.2 o ho
    exact ⟨this, by omega⟩
  · rw [hd]
    exact loopOffsets_of_wellFormed buf numread n h
  · intro x hx o
    obtain ⟨hre, _, _⟩ := emitted_readEntry buf numread x hx
    obtain ⟨he, h20, hb⟩ := readEntry_ok_inv buf x.cursor x.entry hre
    have hlen : x.entry.record_length = recLenAt buf x.cursor := by rw [he]; rfl
    rw [hlen]
    exact readEntryOffsets_good_mem buf x.cursor o h20 hb
  · intro x hx
    exact (emitted_readEntry buf numread x hx).1
  · rw [hd]
  · rw [hd]
    intro hne
    cases hne

/-- C15 on the example block: 44 of its 46 bytes are read (all but the two
padding bytes), each at an offset below 46. -/
theorem loop_reads_in_bounds_witness :
    WellFormed exampleBlock 46 2 ∧
    (loopOffsets exampleBlock 46 46 0).length = 44 ∧
    (∀ o ∈ loopOffsets exampleBlock 46 46 0, o < 46 ∧ o < BLOCK_SIZE) :=
  ⟨by decide, by rfl, (loop_reads_in_bounds exampleBlock 46 2 (by decide)).1⟩

end LsCopy
